import Mathlib

/-!
Verification development for the CIE TC1-82 colour-computation module
(`tc.py`).  The numerical code is shallowly embedded over `ℚ` (exact
arithmetic).  External numeric primitives (scipy splines, the bounded scalar
minimiser `fmin`) and the tabulated reference dataset are not part of the
module's source; they are modelled as explicit oracle parameters, while every
control-flow decision, formula and rounding step of `tc.py` itself is
translated directly.  NaN outcomes of numpy operations are modelled as
`Option`; rational division by zero (`q / 0 = 0` in Lean) corresponds to the
places where numpy would emit NaN/inf, and theorems about quotient values
carry explicit nonzero-denominator hypotheses where that matters.

First all definitions, then all theorems.
-/

namespace CIE

/-- A data row `(λ, value)`. -/
abbrev Row2 := ℚ × ℚ

/-- A data row `(λ, v₁, v₂, v₃)`. -/
abbrev Row4 := ℚ × ℚ × ℚ × ℚ

/-- A coordinate triple (or a `(λ, u, v)` row of a 2-D diagram). -/
abbrev Triple := ℚ × ℚ × ℚ

/-- `my_round(x, n)` (tc.py, `my_round`): round to `n` decimal places with
ties away from zero: `sign(x) * floor(|x| * 10^n + 0.5) / 10^n`. -/
def my_round (x : ℚ) (n : ℕ) : ℚ :=
  (if x < 0 then -1 else if x = 0 then 0 else 1) *
    (⌊|x| * 10 ^ n + 1/2⌋ : ℤ) / 10 ^ n

/-- Fuelled floor-log10 on naturals: `nlog10 fuel m = ⌊log10 m⌋` whenever
`1 ≤ m ≤ fuel` (see `nlog10_spec`).  The explicit fuel keeps the definition
structurally recursive, hence kernel-computable. -/
def nlog10 : ℕ → ℕ → ℕ
  | 0, _ => 0
  | fuel+1, m => if m < 10 then 0 else nlog10 fuel (m / 10) + 1

/-- Exact-arithmetic `ceil(log10 x)` for positive rationals: the unique `k`
with `10^(k-1) < x ≤ 10^k` (see `ceilLog10_spec`).  This is the value numpy's
`ceil(log10(.))` denotes, computed from digit counts of the numerator and
denominator plus one comparison. -/
def ceilLog10 (x : ℚ) : ℤ :=
  let k0 : ℤ := (nlog10 x.num.toNat x.num.toNat : ℤ) - (nlog10 x.den x.den : ℤ)
  if x ≤ (10:ℚ) ^ k0 then k0 else k0 + 1

/-- Elementwise (array) branch of `significant_figures` (tc.py): the scale
exponent is `ceil(log10 |x|)` (numpy applies `abs` on the array path), then
`10^b * my_round(x / 10^b, n)`; zero maps to zero. -/
def significant_figures_elem (x : ℚ) (n : ℕ) : ℚ :=
  if x = 0 then 0
  else (10 : ℚ) ^ (ceilLog10 |x|) * my_round (x / (10:ℚ) ^ (ceilLog10 |x|)) n

/-- Scalar branch of `significant_figures` (tc.py): it computes
`ceil(log10 x)` WITHOUT the absolute value, so for a negative scalar numpy
returns NaN; the NaN outcome is modelled as `none`. -/
def significant_figures_scalar (x : ℚ) (n : ℕ) : Option ℚ :=
  if x = 0 then some 0
  else if 0 < x then
    some ((10 : ℚ) ^ (ceilLog10 x) * my_round (x / (10:ℚ) ^ (ceilLog10 x)) n)
  else none

/-- Age coefficient applied to the `docul1` component inside `ocular`
(tc.py, `ocular`): `1 + 0.02*(age-32)` for `age < 60`, else
`1.56 + 0.0667*(age-60)`. -/
def ocularCoeff (age : ℚ) : ℚ :=
  if age < 60 then 1 + 0.02 * (age - 32) else 1.56 + 0.0667 * (age - 60)

/-- The `age < 60` branch formula of `ocular`, as a total function. -/
def ocularCoeffBelow (age : ℚ) : ℚ := 1 + 0.02 * (age - 32)

/-- The `age >= 60` branch formula of `ocular`, as a total function. -/
def ocularCoeffAbove (age : ℚ) : ℚ := 1.56 + 0.0667 * (age - 60)

/-- One row of the ocular-media density `ocular(age)` (tc.py): the branch
coefficient times the `docul1` value plus the unweighted `docul2` value. -/
def ocularDensity (age d1 d2 : ℚ) : ℚ := ocularCoeff age * d1 + d2

/-- Minimum of a list (`np.min`); 0 on the empty list (numpy raises there,
but every use below is on a nonempty list). -/
def minQ : List ℚ → ℚ
  | [] => 0
  | x :: xs => xs.foldl min x

/-- Maximum of a list (`np.max`); 0 on the empty list. -/
def maxQ : List ℚ → ℚ
  | [] => 0
  | x :: xs => xs.foldl max x

/-- Index of the first minimum of a list (`np.argmin` semantics): keep the
head index unless the tail minimum is strictly smaller.  (On a nonempty tail
the recursive index is in range, so the `getD` default `x` is never the
decider; on an empty tail the comparison `x < x` correctly keeps 0.) -/
def argminIdx : List ℚ → ℕ
  | [] => 0
  | x :: xs => if xs.getD (argminIdx xs) x < x then argminIdx xs + 1 else 0

/-- Index of the first maximum of a list (`np.argmax` semantics). -/
def argmaxIdx : List ℚ → ℕ
  | [] => 0
  | x :: xs => if x < xs.getD (argmaxIdx xs) x then argmaxIdx xs + 1 else 0

/-- Piecewise-linear interpolation through a node table
(`scipy.interpolate.interp1d(kind='linear')` on its interpolation domain):
locate the segment whose right node is the first with `t ≤ x₁` and
interpolate linearly on it. -/
def linInterp : List (ℚ × ℚ) → ℚ → ℚ
  | [], _ => 0
  | [(_, y0)], _ => y0
  | (x0, y0) :: (x1, y1) :: rest, t =>
    if t ≤ x1 then y0 + (y1 - y0) * (t - x0) / (x1 - x0)
    else linInterp ((x1, y1) :: rest) t

/-- Row-normalise an XYZ table into chromaticities
(tc.py, `chromaticities_from_XYZ`): each row `(λ, X, Y, Z)` becomes
`(λ, X/s, Y/s, Z/s)` with `s = X + Y + Z`. -/
def ccFromXYZ (tab : List Row4) : List Row4 :=
  tab.map (fun r =>
    (r.1, r.2.1 / (r.2.1 + r.2.2.1 + r.2.2.2),
     r.2.2.1 / (r.2.1 + r.2.2.1 + r.2.2.2),
     r.2.2.2 / (r.2.1 + r.2.2.1 + r.2.2.2)))

/-- The five interpolation knots computed by `chromaticities_from_XYZ`
(tc.py): first wavelength, wavelength of the x-chromaticity minimum,
wavelength of the y-chromaticity maximum, 700, last wavelength. -/
def knotsOf (cc : List Row4) : List ℚ :=
  [(cc.headD (0, 0, 0, 0)).1,
   (cc.getD (argminIdx (cc.map (fun r => r.2.1))) (0, 0, 0, 0)).1,
   (cc.getD (argmaxIdx (cc.map (fun r => r.2.2.1))) (0, 0, 0, 0)).1,
   700,
   ((cc.getLast?).getD (0, 0, 0, 0)).1]

/-- Replace the first element of a list. -/
def setFirst (v : ℚ) : List ℚ → List ℚ
  | [] => []
  | _ :: xs => v :: xs

/-- Replace the last element of a list. -/
def setLast (v : ℚ) : List ℚ → List ℚ
  | [] => []
  | [_] => [v]
  | x :: y :: xs => x :: setLast v (y :: xs)

/-- Knot blending of `chromaticity_interpolated` (tc.py):
`(1-alpha)*cc31knots + alpha*cc64knots`, then `knots[0] = 360`,
`knots[-1] = 830`. -/
def blendedKnots (alpha : ℚ) (k31 k64 : List ℚ) : List ℚ :=
  setLast 830 (setFirst 360 (List.zipWith (fun a b => (1 - alpha) * a + alpha * b) k31 k64))

/-- The blend weight `alpha = (field_size - 2)/8` of
`chromaticity_interpolated` (tc.py). -/
def alphaOf (fieldSize : ℚ) : ℚ := (fieldSize - 2) / 8

/-- One row of `chromaticity_interpolated(field_size)` (tc.py), evaluated at
wavelength `lam` (the code tabulates `lam = 360..830` at 1 nm).  `interp`
stands for the library cubic interpolant used on the per-standard x/y value
tables; the wavelength remapping through the knots uses
`interp1d(kind='linear')`, embedded concretely as `linInterp`.
`z = 1 - x - y`. -/
def chromIntRow (interp : List (ℚ × ℚ) → ℚ → ℚ) (xyz31 xyz64 : List Row4)
    (fieldSize : ℚ) (lam : ℚ) : Triple :=
  let alpha := alphaOf fieldSize
  let cc31 := ccFromXYZ xyz31
  let cc64 := ccFromXYZ xyz64
  let k31 := knotsOf cc31
  let k64 := knotsOf cc64
  let knots := blendedKnots alpha k31 k64
  let lambda31 := linInterp (knots.zip k31) lam
  let lambda64 := linInterp (knots.zip k64) lam
  let x := (1 - alpha) * interp (cc31.map (fun r => (r.1, r.2.1))) lambda31
           + alpha * interp (cc64.map (fun r => (r.1, r.2.1))) lambda64
  let y := (1 - alpha) * interp (cc31.map (fun r => (r.1, r.2.2.1))) lambda31
           + alpha * interp (cc64.map (fun r => (r.1, r.2.2.1))) lambda64
  (x, y, 1 - x - y)

/-- A 3×3 transformation matrix with named entries. -/
structure Mat3 where
  a11 : ℚ
  a12 : ℚ
  a13 : ℚ
  a21 : ℚ
  a22 : ℚ
  a23 : ℚ
  a31 : ℚ
  a32 : ℚ
  a33 : ℚ
deriving DecidableEq

/-- Inputs of one `square_sum` evaluation (tc.py): the fixed matrix entries
`a21, a22, a33`, the resampled spline functions, the requested wavelength
grid, the reference chromaticity function, the `fmin` oracle, and the
rounding options. -/
structure SolverData where
  a21 : ℚ
  a22 : ℚ
  a33 : ℚ
  l : ℚ → ℚ
  m : ℚ → ℚ
  s : ℚ → ℚ
  v : ℚ → ℚ
  lambdas : List ℚ
  ccRef : ℤ → Triple
  fmin : ℤ → ℚ
  xyzSignfig : ℕ
  matDp : ℕ

/-- The hard-coded 1 nm wavelength grid 390..830 used inside `square_sum`
(`np.arange(390, 831)`), which also corresponds to rows `30:` of the 471-row
reference chromaticity table (wavelengths 360..830). -/
def innerGrid : List ℤ := (List.range 441).map (fun k : ℕ => 390 + (k : ℤ))

/-- XYZ triple at one wavelength: matrix times LMS, each coordinate rounded
to `sig` significant figures, as in `xyz = significant_figures(np.dot(trans_mat, lms), ...)`. -/
def xyzTripleOf (mat : Mat3) (L M S : ℚ) (sig : ℕ) : Triple :=
  (significant_figures_elem (mat.a11 * L + mat.a12 * M + mat.a13 * S) sig,
   significant_figures_elem (mat.a21 * L + mat.a22 * M + mat.a23 * S) sig,
   significant_figures_elem (mat.a31 * L + mat.a32 * M + mat.a33 * S) sig)

/-- First chromaticity coordinate `X / (X + Y + Z)`. -/
def ccxOf (t : Triple) : ℚ := t.1 / (t.1 + t.2.1 + t.2.2)

/-- Second chromaticity coordinate `Y / (X + Y + Z)`. -/
def ccyOf (t : Triple) : ℚ := t.2.1 / (t.1 + t.2.1 + t.2.2)

/-- Third chromaticity coordinate `Z / (X + Y + Z)`. -/
def cczOf (t : Triple) : ℚ := t.2.2 / (t.1 + t.2.1 + t.2.2)

/-- Modelled x-chromaticity at integer wavelength `lam`: the trial matrix
applied to the spline-valued cone fundamentals, rounded, then normalised —
exactly the quantity `square_sum` minimises over `np.arange(390, 831)`. -/
def xChrom (d : SolverData) (mat : Mat3) (lam : ℤ) : ℚ :=
  ccxOf (xyzTripleOf mat (d.l (lam : ℚ)) (d.m (lam : ℚ)) (d.s (lam : ℚ)) d.xyzSignfig)

/-- Result record of `square_sum(..., full_results=True)` (tc.py):
`err, trans_mat, lambda_test_min, ok`. -/
structure SSResult where
  err : ℚ
  mat : Mat3
  lamTest : ℤ
  ok : Bool
deriving DecidableEq

/-- The closed-form `a11` of `square_sum` (tc.py, "Computed by
Mathematica"): arguments are the fixed entries, the spline values at the
landmark, the grid sums, and `x_ref_min`. -/
def squareSumA11 (a13 a21 a22 a33 lr mr sr Sl Sm Ss Sv xRefMin : ℚ) : ℚ :=
  (-mr * Sv + a13 * (sr * Sm - mr * Ss) * (-1 + xRefMin) +
   (a21 * lr + a33 * sr) * Sm * xRefMin +
   mr * (a22 * Sm + Sv) * xRefMin) /
  ((mr * Sl - lr * Sm) * (-1 + xRefMin))

/-- The closed-form `a12` of `square_sum`. -/
def squareSumA12 (a13 a21 a22 a33 lr mr sr Sl Sm Ss Sv xRefMin : ℚ) : ℚ :=
  (lr * Sv - a13 * (sr * Sl - lr * Ss) * (-1 + xRefMin) -
   ((a21 * lr + a22 * mr + a33 * sr) * Sl + lr * Sv) * xRefMin) /
  ((mr * Sl - lr * Sm) * (-1 + xRefMin))

/-- `square_sum` (tc.py): from candidate `a13` and the current landmark
`lamRef` (`lambda_ref_min`), compute `a11, a12` by the closed-form
expressions, round all three to `matDp` decimals, build the trial matrix
`[[a11,a12,a13],[a21,a22,0],[0,0,a33]]`, and locate the first wavelength of
`innerGrid` minimising the modelled x-chromaticity; `ok` records whether it
equals `lamRef`.  `x_ref_min` is the minimum of the x-row of the truncated
reference table `cc_ref[30:,1:]`, i.e. over wavelengths 390..830. -/
def squareSum (d : SolverData) (a13 : ℚ) (lamRef : ℤ) : SSResult :=
  let xRefMin := minQ (innerGrid.map (fun lam => (d.ccRef lam).1))
  let Sl := (d.lambdas.map d.l).sum
  let Sm := (d.lambdas.map d.m).sum
  let Ss := (d.lambdas.map d.s).sum
  let Sv := (d.lambdas.map d.v).sum
  let lr := d.l (lamRef : ℚ)
  let mr := d.m (lamRef : ℚ)
  let sr := d.s (lamRef : ℚ)
  let a11 := squareSumA11 a13 d.a21 d.a22 d.a33 lr mr sr Sl Sm Ss Sv xRefMin
  let a12 := squareSumA12 a13 d.a21 d.a22 d.a33 lr mr sr Sl Sm Ss Sv xRefMin
  let mat : Mat3 :=
    ⟨my_round a11 d.matDp, my_round a12 d.matDp, my_round a13 d.matDp,
     d.a21, d.a22, 0, 0, 0, d.a33⟩
  let xs := innerGrid.map (fun lam => xChrom d mat lam)
  let err := (innerGrid.map (fun (lam : ℤ) =>
      let t := xyzTripleOf mat (d.l (lam : ℚ)) (d.m (lam : ℚ)) (d.s (lam : ℚ)) d.xyzSignfig
      let r := d.ccRef lam
      (ccxOf t - r.1) ^ 2 + (ccyOf t - r.2.1) ^ 2 + (cczOf t - r.2.2) ^ 2)).sum
  let lamTest : ℤ := 390 + argminIdx xs
  ⟨err, mat, lamTest, lamTest == lamRef⟩

/-- One iteration of the outer loop of `compute_tabulated` (tc.py): run the
`fmin` oracle for `a13` at the current landmark, then `square_sum` with full
results; the new landmark is `lambda_test_min`. -/
def solverStep (d : SolverData) (lamRef : ℤ) : ℤ :=
  (squareSum d (d.fmin lamRef) lamRef).lamTest

/-- The outer fixed-point loop of `compute_tabulated` (tc.py,
`while not ok:`), with explicit fuel.  The source loop has no iteration
bound of its own, so `none` means "still running after `fuel` iterations". -/
def solverLoop (d : SolverData) : ℕ → ℤ → Option SSResult
  | 0, _ => none
  | fuel+1, lamRef =>
    let r := squareSum d (d.fmin lamRef) lamRef
    if r.ok then some r else solverLoop d fuel r.lamTest

/-- The bare control skeleton of that loop: repeatedly apply `body`
(returning the next landmark and the convergence flag `ok`) until the flag
is true.  Fuel-indexed because the source loop (`while not ok:`) carries no
iteration counter or bound. -/
def whileLoop (body : ℤ → ℤ × Bool) : ℕ → ℤ → Option ℤ
  | 0, _ => none
  | fuel+1, lam =>
    let r := body lam
    if r.2 then some r.1 else whileLoop body fuel r.1

/-- 2-D cross product `(q - p) × (r - p)`. -/
def cross2 (p q r : ℚ × ℚ) : ℚ :=
  (q.1 - p.1) * (r.2 - p.2) - (q.2 - p.2) * (r.1 - p.1)

/-- Index pair `(i, j)` is an edge of the convex hull of the point list:
all other points lie strictly on one side of the line through `pts[i]` and
`pts[j]`.  This is the edge set `Delaunay(...).convex_hull` reports for
points in general position. -/
def isHullEdge (pts : List (ℚ × ℚ)) (i j : ℕ) : Bool :=
  let p := pts.getD i (0, 0)
  let q := pts.getD j (0, 0)
  let others := (List.range pts.length).filter (fun k => k ≠ i && k ≠ j)
  (others.all (fun k => decide (0 < cross2 p q (pts.getD k (0, 0)))) ||
   others.all (fun k => decide (cross2 p q (pts.getD k (0, 0)) < 0)))

/-- Value-level hull-edge predicate: `p` and `q` are distinct cloud points
and every other point lies strictly on one side of the line through them.
Depends only on the multiset of points, not on their order. -/
def isHullEdgePts (pts : List (ℚ × ℚ)) (p q : ℚ × ℚ) : Prop :=
  p ∈ pts ∧ q ∈ pts ∧ p ≠ q ∧
  ((∀ r ∈ pts, r ≠ p → r ≠ q → 0 < cross2 p q r) ∨
   (∀ r ∈ pts, r ≠ p → r ≠ q → cross2 p q r < 0))

/-- All hull edges as index pairs `i < j`, enumerated in lexicographic
order (qhull's reporting order is unspecified; every use below has a unique
maximiser, making the order immaterial). -/
def hullEdges (pts : List (ℚ × ℚ)) : List (ℕ × ℕ) :=
  (List.range pts.length).flatMap (fun i =>
    (((List.range pts.length).filter (fun j => decide (i < j) && isHullEdge pts i j)).map
      (fun j => (i, j))))

/-- The purple-line edge (tc.py): the hull edge whose endpoint *indices*
differ the most, `ind = np.argmax(np.abs(convex_hull[:,0] - convex_hull[:,1]))`. -/
def purpleEdge (pts : List (ℚ × ℚ)) : ℕ × ℕ :=
  let es := hullEdges pts
  es.getD (argmaxIdx (es.map (fun e => |((e.1 : ℚ)) - ((e.2 : ℚ))|))) (0, 0)

/-- Wavelength-labelled purple-line endpoints of a full-resolution diagram:
rows `(λ, u, v)`, hull taken in the `(u, v)` plane, the two endpoint rows
returned in hull-index order (tc.py, the "Compute purple line" blocks). -/
def purpleLineOf (rows : List Triple) : Triple × Triple :=
  let pts := rows.map (fun r => (r.2.1, r.2.2))
  let e := purpleEdge pts
  (rows.getD e.1 (0, 0, 0), rows.getD e.2 (0, 0, 0))

/-- Round the two coordinate entries of a `(λ, u, v)` endpoint row
(`purple_line_xx[:,1:] = my_round(..., dp)` — the wavelength column is not
rounded). -/
def roundTail (dp : ℕ) (t : Triple) : Triple :=
  (t.1, my_round t.2.1 dp, my_round t.2.2 dp)

/-- Oracle bundle standing for everything `compute_tabulated` consumes from
outside its own body: the synthesis subroutines it calls (whose values
depend on the reference dataset and scipy), the spline constructor
`InterpolatedUnivariateSpline` (a function from a node table to an
interpolant), the `scipy.optimize.fmin` result for `a13` as a function of
the current landmark, and the two tabulated CIE standard colour-matching
tables. -/
structure Primitives where
  lmsEnergyBase : ℚ → ℚ → List Row4
  lmsEnergy : ℚ → ℚ → ℕ → List Row4
  vLambdaFromLms : ℚ → ℚ → ℕ → ℕ → List Row2 × ℚ × ℚ
  interp : List (ℚ × ℚ) → ℚ → ℚ
  fmin : ℤ → ℚ
  xyz31 : List Row4
  xyz64 : List Row4

/-- The requested wavelength grid
`lambdas = np.arange(390, 830 + resolution, resolution)` (tc.py); empty for
a nonpositive step, as numpy returns an empty range there. -/
def gridOf (res : ℚ) : List ℚ :=
  if 0 < res then
    (List.range ((⌈(440 : ℚ) / res⌉).toNat + 1)).map (fun k => 390 + (k : ℚ) * res)
  else []

/-- The L spline of `compute_tabulated`: the interpolant through the
full-resolution base LMS table's L column. -/
def lSplineOf (P : Primitives) (fs age : ℚ) : ℚ → ℚ :=
  P.interp ((P.lmsEnergyBase fs age).map (fun r => (r.1, r.2.1)))

/-- The M spline (column 2 of the base LMS table). -/
def mSplineOf (P : Primitives) (fs age : ℚ) : ℚ → ℚ :=
  P.interp ((P.lmsEnergyBase fs age).map (fun r => (r.1, r.2.2.1)))

/-- The S spline (column 3 of the base LMS table). -/
def sSplineOf (P : Primitives) (fs age : ℚ) : ℚ → ℚ :=
  P.interp ((P.lmsEnergyBase fs age).map (fun r => (r.1, r.2.2.2)))

/-- The L spline over the standard-precision LMS table. -/
def lsSplineOf (P : Primitives) (fs age : ℚ) (lmsSig : ℕ) : ℚ → ℚ :=
  P.interp ((P.lmsEnergy fs age lmsSig).map (fun r => (r.1, r.2.1)))

/-- The M spline over the standard-precision LMS table. -/
def msSplineOf (P : Primitives) (fs age : ℚ) (lmsSig : ℕ) : ℚ → ℚ :=
  P.interp ((P.lmsEnergy fs age lmsSig).map (fun r => (r.1, r.2.2.1)))

/-- The S spline over the standard-precision LMS table. -/
def ssSplineOf (P : Primitives) (fs age : ℚ) (lmsSig : ℕ) : ℚ → ℚ :=
  P.interp ((P.lmsEnergy fs age lmsSig).map (fun r => (r.1, r.2.2.2)))

/-- The V(λ) spline: the interpolant through the table returned by
`v_lambda_energy_from_lms`. -/
def vSplineOf (P : Primitives) (fs age : ℚ) (xyzSig matDp : ℕ) : ℚ → ℚ :=
  P.interp ((P.vLambdaFromLms fs age xyzSig matDp).1)

/-- The weights `(a21, a22)` returned by `v_lambda_energy_from_lms`. -/
def weightsOf (P : Primitives) (fs age : ℚ) (xyzSig matDp : ℕ) : ℚ × ℚ :=
  (P.vLambdaFromLms fs age xyzSig matDp).2

/-- `a33 = my_round(v_values.sum() / s_values.sum(), mat_dp)` (tc.py), the
sums running over the requested wavelength grid. -/
def a33Of (P : Primitives) (fs age res : ℚ) (xyzSig matDp : ℕ) : ℚ :=
  my_round ((((gridOf res).map (vSplineOf P fs age xyzSig matDp)).sum) /
            (((gridOf res).map (sSplineOf P fs age)).sum)) matDp

/-- The `SolverData` with which `compute_tabulated` enters its fixed-point
loop: weights from `v_lambda_energy_from_lms`, `a33` from the grid sums,
splines over the synthesized tables, and the embedded
`chromaticity_interpolated(field_size)` as reference. -/
def solverDataOf (P : Primitives) (fs age res : ℚ) (xyzSig matDp : ℕ) : SolverData where
  a21 := (weightsOf P fs age xyzSig matDp).1
  a22 := (weightsOf P fs age xyzSig matDp).2
  a33 := a33Of P fs age res xyzSig matDp
  l := lSplineOf P fs age
  m := mSplineOf P fs age
  s := sSplineOf P fs age
  v := vSplineOf P fs age xyzSig matDp
  lambdas := gridOf res
  ccRef := fun lam => chromIntRow P.interp P.xyz31 P.xyz64 fs (lam : ℚ)
  fmin := P.fmin
  xyzSignfig := xyzSig
  matDp := matDp

/-- The result bundle of `compute_tabulated` (tc.py return statement),
restricted to the top-level tables (the `plots` dict of finer-resolution
copies is reproduced only where the purple-line computations consume it). -/
structure Bundle where
  xyz : List Row4
  cc : List Row4
  ccWhite : Triple
  mat : Mat3
  lmsStandard : List Row4
  lmsBase : List Row4
  bm : List Row4
  bmWhite : Triple
  lm : List Row4
  lmWhite : Triple
  landmark : ℤ
  purpleLineCC : Triple × Triple
  purpleLineBM : Triple × Triple
  purpleLineLM : Triple × Triple
deriving DecidableEq

/-- `bm_s_max = np.max(lms[:,3] / v_lambda[:,1])` (tc.py): elementwise over
the full-resolution base LMS table and the V(λ) table. -/
def bmSmaxOf (P : Primitives) (fs age : ℚ) (xyzSig matDp : ℕ) : ℚ :=
  maxQ (List.zipWith (fun (a : Row4) (b : Row2) => a.2.2.2 / b.2)
    (P.lmsEnergyBase fs age) (P.vLambdaFromLms fs age xyzSig matDp).1)

/-- The resampled LMS table on the requested grid (tc.py: the base splines
applied to `lambdas`, reshaped with the wavelength column). -/
def lmsTableOf (P : Primitives) (fs age res : ℚ) : List Row4 :=
  (gridOf res).map (fun t =>
    (t, lSplineOf P fs age t, mSplineOf P fs age t, sSplineOf P fs age t))

/-- The resampled standard-precision LMS table on the requested grid. -/
def lmsStdTableOf (P : Primitives) (fs age res : ℚ) (lmsSig : ℕ) : List Row4 :=
  (gridOf res).map (fun t =>
    (t, lsSplineOf P fs age lmsSig t, msSplineOf P fs age lmsSig t,
     ssSplineOf P fs age lmsSig t))

/-- `xyz = significant_figures(np.dot(trans_mat, lms), xyz_signfig)` on the
requested grid, with wavelength column. -/
def xyzTableOf (P : Primitives) (fs age res : ℚ) (xyzSig : ℕ) (mat : Mat3) :
    List Row4 :=
  (gridOf res).map (fun t =>
    let u := xyzTripleOf mat (lSplineOf P fs age t) (mSplineOf P fs age t)
      (sSplineOf P fs age t) xyzSig
    (t, u.1, u.2.1, u.2.2))

/-- `cc`: the XYZ table normalised rowwise and rounded to `cc_dp`. -/
def ccTableOf (P : Primitives) (fs age res : ℚ) (xyzSig ccDp : ℕ) (mat : Mat3) :
    List Row4 :=
  (xyzTableOf P fs age res xyzSig mat).map (fun row =>
    (row.1, my_round (ccxOf (row.2.1, row.2.2.1, row.2.2.2)) ccDp,
     my_round (ccyOf (row.2.1, row.2.2.1, row.2.2.2)) ccDp,
     my_round (cczOf (row.2.1, row.2.2.1, row.2.2.2)) ccDp))

/-- `cc_white`: columnwise XYZ sums, normalised and rounded. -/
def ccWhiteOf (P : Primitives) (fs age res : ℚ) (xyzSig ccDp : ℕ) (mat : Mat3) :
    Triple :=
  let tab := xyzTableOf P fs age res xyzSig mat
  let sX := (tab.map (fun row => row.2.1)).sum
  let sY := (tab.map (fun row => row.2.2.1)).sum
  let sZ := (tab.map (fun row => row.2.2.2)).sum
  (my_round (sX / (sX + sY + sZ)) ccDp, my_round (sY / (sX + sY + sZ)) ccDp,
   my_round (sZ / (sX + sY + sZ)) ccDp)

/-- `bm`: the Boynton-MacLeod table (tc.py): `a21*L/V`, `a22*M/V`,
`(S/V)/bm_s_max`, each rounded to `bm_dp`, with wavelength column. -/
def bmTableOf (P : Primitives) (fs age res : ℚ) (xyzSig matDp bmDp : ℕ)
    (mat : Mat3) : List Row4 :=
  (gridOf res).map (fun t =>
    (t, my_round (mat.a21 * lSplineOf P fs age t / vSplineOf P fs age xyzSig matDp t) bmDp,
     my_round (mat.a22 * mSplineOf P fs age t / vSplineOf P fs age xyzSig matDp t) bmDp,
     my_round ((sSplineOf P fs age t / vSplineOf P fs age xyzSig matDp t) /
       bmSmaxOf P fs age xyzSig matDp) bmDp))

/-- `bm_white` (tc.py): from `L_E, M_E, S_E`. -/
def bmWhiteOf (P : Primitives) (fs age res : ℚ) (xyzSig matDp bmDp : ℕ)
    (mat : Mat3) : Triple :=
  let LE := mat.a21 * (((gridOf res).map (lSplineOf P fs age)).sum)
  let ME := mat.a22 * (((gridOf res).map (mSplineOf P fs age)).sum)
  let SE := (((gridOf res).map (sSplineOf P fs age)).sum) / bmSmaxOf P fs age xyzSig matDp
  (my_round (LE / (LE + ME)) bmDp, my_round (ME / (LE + ME)) bmDp,
   my_round (SE / (LE + ME)) bmDp)

/-- `lms_N` before normalisation: the full-precision resampled LMS table if
`lm_dp > 5`, else the standard-precision one (tc.py). -/
def lmsNOf (P : Primitives) (fs age res : ℚ) (lmsSig lmDp : ℕ) : List Row4 :=
  if 5 < lmDp then lmsTableOf P fs age res else lmsStdTableOf P fs age res lmsSig

/-- The three spline values feeding the `lms_N` row at wavelength `t`
(full-precision splines when `lm_dp > 5`, standard-precision otherwise). -/
def lmsNRowAt (P : Primitives) (fs age : ℚ) (lmsSig lmDp : ℕ) (t : ℚ) : Triple :=
  if 5 < lmDp then
    (lSplineOf P fs age t, mSplineOf P fs age t, sSplineOf P fs age t)
  else
    (lsSplineOf P fs age lmsSig t, msSplineOf P fs age lmsSig t,
     ssSplineOf P fs age lmsSig t)

/-- `lms_N` after columnwise normalisation
(`lms_N[:,1:] = lms_N[:,1:] / np.sum(lms_N[:,1:], 0)`). -/
def lmsNnOf (P : Primitives) (fs age res : ℚ) (lmsSig lmDp : ℕ) : List Row4 :=
  let tab := lmsNOf P fs age res lmsSig lmDp
  let cL := (tab.map (fun row => row.2.1)).sum
  let cM := (tab.map (fun row => row.2.2.1)).sum
  let cS := (tab.map (fun row => row.2.2.2)).sum
  tab.map (fun row => (row.1, row.2.1 / cL, row.2.2.1 / cM, row.2.2.2 / cS))

/-- `lm`: the rowwise-normalised `lms_N`, rounded to `lm_dp`. -/
def lmTableOf (P : Primitives) (fs age res : ℚ) (lmsSig lmDp : ℕ) : List Row4 :=
  (lmsNnOf P fs age res lmsSig lmDp).map (fun row =>
    (row.1, my_round (row.2.1 / (row.2.1 + row.2.2.1 + row.2.2.2)) lmDp,
     my_round (row.2.2.1 / (row.2.1 + row.2.2.1 + row.2.2.2)) lmDp,
     my_round (row.2.2.2 / (row.2.1 + row.2.2.1 + row.2.2.2)) lmDp))

/-- The column sums of the normalised `lms_N` — the value
`np.sum(lms_N[:,1:], 0)` has after the normalisation assignment; it feeds
both `lm_white` and the fine `lm` cloud divisor. -/
def lmColSumsOf (P : Primitives) (fs age res : ℚ) (lmsSig lmDp : ℕ) : Triple :=
  let tab := lmsNnOf P fs age res lmsSig lmDp
  ((tab.map (fun row => row.2.1)).sum, (tab.map (fun row => row.2.2.1)).sum,
   (tab.map (fun row => row.2.2.2)).sum)

/-- `lm_white` (tc.py): the normalised column sums, rounded. -/
def lmWhiteOf (P : Primitives) (fs age res : ℚ) (lmsSig lmDp : ℕ) : Triple :=
  let w := lmColSumsOf P fs age res lmsSig lmDp
  (my_round (w.1 / (w.1 + w.2.1 + w.2.2)) lmDp,
   my_round (w.2.1 / (w.1 + w.2.1 + w.2.2)) lmDp,
   my_round (w.2.2 / (w.1 + w.2.1 + w.2.2)) lmDp)

/-- `plots['xyz']`: the matrix applied to the full-resolution base LMS
table, rounded to significant figures, with wavelength column. -/
def xyzFullOf (P : Primitives) (fs age : ℚ) (xyzSig : ℕ) (mat : Mat3) :
    List Row4 :=
  (P.lmsEnergyBase fs age).map (fun row =>
    let u := xyzTripleOf mat row.2.1 row.2.2.1 row.2.2.2 xyzSig
    (row.1, u.1, u.2.1, u.2.2))

/-- `plots['cc']` rows `(λ, x, y)`: the full-resolution chromaticity cloud
feeding the cc purple line. -/
def ccFullRowsOf (P : Primitives) (fs age : ℚ) (xyzSig : ℕ) (mat : Mat3) :
    List Triple :=
  (xyzFullOf P fs age xyzSig mat).map (fun row =>
    (row.1, ccxOf (row.2.1, row.2.2.1, row.2.2.2),
     ccyOf (row.2.1, row.2.2.1, row.2.2.2)))

/-- `plots['bm']` columns `(λ, l, s)` — exactly the columns `[:,1:4:2]`
(plus wavelength) that the bm purple-line block consumes; the denominator is
the full-resolution Y column `plots['xyz'][:,2]`. -/
def bmFullRowsOf (P : Primitives) (fs age : ℚ) (xyzSig matDp : ℕ) (mat : Mat3) :
    List Triple :=
  List.zipWith (fun (row : Row4) (x4 : Row4) =>
      (row.1, mat.a21 * row.2.1 / x4.2.2.1,
       (row.2.2.2 / x4.2.2.1) / bmSmaxOf P fs age xyzSig matDp))
    (P.lmsEnergyBase fs age) (xyzFullOf P fs age xyzSig mat)

/-- `plots['lm']` columns `(λ, l, m)`: the full-resolution lm cloud.  For
`lm_dp <= 5` the base table is first rounded to `lms_signfig` significant
figures; the columns are then divided by the coarse normalised column sums
(`np.sum(lms_N[:,1:], 0)` after normalisation) and normalised rowwise. -/
def lmFullRowsOf (P : Primitives) (fs age res : ℚ) (lmsSig lmDp : ℕ) :
    List Triple :=
  let w := lmColSumsOf P fs age res lmsSig lmDp
  let fine := if lmDp ≤ 5
    then (P.lmsEnergyBase fs age).map (fun row =>
      (row.1, significant_figures_elem row.2.1 lmsSig,
       significant_figures_elem row.2.2.1 lmsSig,
       significant_figures_elem row.2.2.2 lmsSig))
    else P.lmsEnergyBase fs age
  (fine.map (fun row => (row.1, row.2.1 / w.1, row.2.2.1 / w.2.1, row.2.2.2 / w.2.2))).map
    (fun row =>
      (row.1, row.2.1 / (row.2.1 + row.2.2.1 + row.2.2.2),
       row.2.2.1 / (row.2.1 + row.2.2.1 + row.2.2.2)))

/-- The rounded cc purple line, before the wavelength hack. -/
def purpleCCOf (P : Primitives) (fs age : ℚ) (xyzSig ccDp : ℕ) (mat : Mat3) :
    Triple × Triple :=
  let p := purpleLineOf (ccFullRowsOf P fs age xyzSig mat)
  (roundTail ccDp p.1, roundTail ccDp p.2)

/-- The rounded bm purple line. -/
def purpleBMOf (P : Primitives) (fs age : ℚ) (xyzSig matDp bmDp : ℕ) (mat : Mat3) :
    Triple × Triple :=
  let p := purpleLineOf (bmFullRowsOf P fs age xyzSig matDp mat)
  (roundTail bmDp p.1, roundTail bmDp p.2)

/-- The rounded lm purple line. -/
def purpleLMOf (P : Primitives) (fs age res : ℚ) (lmsSig lmDp : ℕ) :
    Triple × Triple :=
  let p := purpleLineOf (lmFullRowsOf P fs age res lmsSig lmDp)
  (roundTail lmDp p.1, roundTail lmDp p.2)

/-- The wavelength hack (tc.py: "Hack to report correct wavelength ..."):
if the second cc endpoint wavelength differs from the second bm endpoint
wavelength, overwrite the cc one with the bm one. -/
def fixPurpleCC (pCC pBM : Triple × Triple) : Triple × Triple :=
  if pCC.2.1 = pBM.2.1 then pCC else (pCC.1, (pBM.2.1, pCC.2.2.1, pCC.2.2.2))

/-- The post-loop body of `compute_tabulated` (tc.py): given the converged
`square_sum` result `r`, assemble every returned table. -/
def assembleBundle (P : Primitives) (fs age res : ℚ)
    (xyzSig ccDp matDp lmsSig bmDp lmDp : ℕ) (r : SSResult) : Bundle :=
  let pCC := purpleCCOf P fs age xyzSig ccDp r.mat
  let pBM := purpleBMOf P fs age xyzSig matDp bmDp r.mat
  { xyz := xyzTableOf P fs age res xyzSig r.mat
    cc := ccTableOf P fs age res xyzSig ccDp r.mat
    ccWhite := ccWhiteOf P fs age res xyzSig ccDp r.mat
    mat := r.mat
    lmsStandard := lmsStdTableOf P fs age res lmsSig
    lmsBase := lmsTableOf P fs age res
    bm := bmTableOf P fs age res xyzSig matDp bmDp r.mat
    bmWhite := bmWhiteOf P fs age res xyzSig matDp bmDp r.mat
    lm := lmTableOf P fs age res lmsSig lmDp
    lmWhite := lmWhiteOf P fs age res lmsSig lmDp
    landmark := r.lamTest
    purpleLineCC := fixPurpleCC pCC pBM
    purpleLineBM := pBM
    purpleLineLM := purpleLMOf P fs age res lmsSig lmDp }

/-- `compute_tabulated` (tc.py): body oracles in `P`; grid construction,
`a33`, the fixed-point loop, every table, every rounding step and the
purple-line computations follow the source.  `none` reports that the
(unbounded) source loop has not converged within `fuel` iterations.  The
source performs no parameter validation: `fs`, `age`, `res` flow straight
into the computation. -/
def computeTabulated (P : Primitives) (fs age res : ℚ) (fuel : ℕ)
    (xyzSig ccDp matDp lmsSig bmDp lmDp : ℕ) : Option Bundle :=
  (solverLoop (solverDataOf P fs age res xyzSig matDp) fuel 500).map
    (assembleBundle P fs age res xyzSig ccDp matDp lmsSig bmDp lmDp)

/-- A concrete four-row colour-matching table used to exercise the model on
explicit inputs: strictly increasing wavelengths 360..830, positive rows,
unique x-chromaticity minimum at 500 and unique y-chromaticity maximum
at 600, so its knot list is strictly increasing. -/
def demoXYZ : List Row4 :=
  [(360, 2, 1, 1), (500, 1, 2, 7), (600, 2, 7, 1), (830, 6, 3, 1)]

/-- A constant three-row LMS table on the grid 390/610/830. -/
def demoLMS : List Row4 := [(390, 1, 1, 1), (610, 1, 1, 1), (830, 1, 1, 1)]

/-- A constant three-row V(λ) table. -/
def demoVl : List Row2 := [(390, 1), (610, 1), (830, 1)]

/-- Concrete primitives: constant synthesis tables, `linInterp` as the
library interpolant, an `fmin` oracle returning 0, and `demoXYZ` standing
for both legacy standards. -/
def demoP : Primitives where
  lmsEnergyBase := fun _ _ => demoLMS
  lmsEnergy := fun _ _ _ => demoLMS
  vLambdaFromLms := fun _ _ _ _ => (demoVl, 1/2, 1/2)
  interp := linInterp
  fmin := fun _ => 0
  xyz31 := demoXYZ
  xyz64 := demoXYZ

/-- The solver data induced by `demoP` at arbitrary physiological
parameters (the demo oracles do not depend on them). -/
def demoData (fs age : ℚ) : SolverData := solverDataOf demoP fs age 220 7 8

/-- The matrix the solver produces on the demo data. -/
def demoMat : Mat3 := ⟨0, 0, 0, 1/2, 1/2, 0, 0, 0, 1⟩

/-- The converged `square_sum` record on the demo data. -/
def demoR (fs age : ℚ) : SSResult := squareSum (demoData fs age) 0 390

/-- The pipeline result at the demo input (field size 2, age 32,
resolution 220, fuel 2, default rounding options 7/5/8/6/6/5). -/
def demoBundle : Bundle := assembleBundle demoP 2 32 220 7 5 8 6 6 5 (demoR 2 32)

/-- The pipeline result at the invalid parameters `field_size = -1`,
`age = -5` (resolution 220, fuel 2, default rounding options). -/
def demoBundleBad : Bundle :=
  assembleBundle demoP (-1) (-5) 220 7 5 8 6 6 5 (demoR (-1) (-5))

/-- The sum of the three significant-figure-rounded XYZ coordinates the
pipeline computes at grid wavelength `t` — the denominator of the `cc`
chromaticity row at `t`. -/
def xyzSumAt (P : Primitives) (fs age : ℚ) (xyzSig : ℕ) (mat : Mat3) (t : ℚ) : ℚ :=
  let u := xyzTripleOf mat (lSplineOf P fs age t) (mSplineOf P fs age t)
    (sSplineOf P fs age t) xyzSig
  u.1 + u.2.1 + u.2.2

/-- The sum of the three column-normalised `lms_N` values at grid
wavelength `t` — the denominator of the `lm` row at `t`. -/
def lmsNnSumAt (P : Primitives) (fs age res : ℚ) (lmsSig lmDp : ℕ) (t : ℚ) : ℚ :=
  let tab := lmsNOf P fs age res lmsSig lmDp
  let cL := (tab.map (fun row => row.2.1)).sum
  let cM := (tab.map (fun row => row.2.2.1)).sum
  let cS := (tab.map (fun row => row.2.2.2)).sum
  (lmsNRowAt P fs age lmsSig lmDp t).1 / cL +
  (lmsNRowAt P fs age lmsSig lmDp t).2.1 / cM +
  (lmsNRowAt P fs age lmsSig lmDp t).2.2 / cS

section Theorems

attribute [local semireducible] Rat.add Rat.sub Rat.mul Rat.inv Rat.ofScientific

/-- `my_round` always produces an integer multiple of `10^(-n)`. -/
theorem my_round_eq_int_div (x : ℚ) (n : ℕ) :
    ∃ k : ℤ, my_round x n = (k : ℚ) / 10 ^ n := by
  unfold my_round
  by_cases h0 : x < 0
  · exact ⟨-⌊|x| * 10 ^ n + 1/2⌋, by rw [if_pos h0]; push_cast; ring⟩
  · by_cases h1 : x = 0
    · exact ⟨0, by rw [if_neg h0, if_pos h1]; norm_num⟩
    · exact ⟨⌊|x| * 10 ^ n + 1/2⌋, by rw [if_neg h0, if_neg h1]; ring⟩

/-- The rounding error of `my_round` is at most half a quantum. -/
theorem abs_my_round_sub_le (x : ℚ) (n : ℕ) :
    |my_round x n - x| ≤ 1 / (2 * 10 ^ n) := by
  have hq : (0:ℚ) < 10 ^ n := by positivity
  have hfloor : ∀ u : ℚ, |(⌊u + 1/2⌋ : ℚ) - u| ≤ 1/2 := by
    intro u
    rw [abs_le]
    constructor
    · have := Int.lt_floor_add_one (u + 1/2)
      linarith
    · have := Int.floor_le (u + 1/2)
      linarith
  have key : ∀ y c : ℚ, |c - y * 10 ^ n| ≤ 1/2 →
      |c / 10 ^ n - y| ≤ 1 / (2 * 10 ^ n) := by
    intro y c h
    have hrw : c / 10 ^ n - y = (c - y * 10 ^ n) / 10 ^ n := by
      field_simp
      ring
    rw [hrw, abs_div, abs_of_pos hq]
    have hhalf : (1:ℚ) / (2 * 10 ^ n) = (1/2) / 10 ^ n := by
      field_simp
    rw [hhalf]
    gcongr
  unfold my_round
  by_cases h0 : x < 0
  · rw [if_pos h0, abs_of_neg h0]
    have h := hfloor (-x * 10 ^ n)
    have hneg : (-1 : ℚ) * (⌊-x * 10 ^ n + 1/2⌋ : ℤ) / 10 ^ n - x
        = -(((⌊-x * 10 ^ n + 1/2⌋ : ℤ) : ℚ) / 10 ^ n - -x) := by
      ring
    rw [hneg, abs_neg]
    exact key (-x) _ h
  · by_cases h1 : x = 0
    · subst h1
      simp [my_round]
    · rw [if_neg h0, if_neg h1,
        abs_of_pos (lt_of_le_of_ne (not_lt.mp h0) (Ne.symm h1))]
      have h := hfloor (x * 10 ^ n)
      rw [one_mul]
      exact key x _ h

/-- Rounding three quantities that sum exactly to 1 keeps the sum within one
quantum `10^(-n)` of 1: each rounding error is at most half a quantum, and
the rounded sum is an integer multiple of the quantum. -/
theorem round3_sum_near_one {x y z : ℚ} (n : ℕ) (h : x + y + z = 1) :
    |my_round x n + my_round y n + my_round z n - 1| ≤ 1 / 10 ^ n := by
  have hq : (0:ℚ) < 10 ^ n := by positivity
  obtain ⟨kx, hkx⟩ := my_round_eq_int_div x n
  obtain ⟨ky, hky⟩ := my_round_eq_int_div y n
  obtain ⟨kz, hkz⟩ := my_round_eq_int_div z n
  set m : ℤ := kx + ky + kz - 10 ^ n with hm
  have hsum : my_round x n + my_round y n + my_round z n - 1 = (m : ℚ) / 10 ^ n := by
    rw [hkx, hky, hkz, hm]
    push_cast
    field_simp
  have herr : |my_round x n + my_round y n + my_round z n - 1| ≤ 3 / (2 * 10 ^ n) := by
    have hdecomp : my_round x n + my_round y n + my_round z n - 1
        = (my_round x n - x) + (my_round y n - y) + (my_round z n - z) := by
      rw [← h]; ring
    calc |my_round x n + my_round y n + my_round z n - 1|
        = |(my_round x n - x) + (my_round y n - y) + (my_round z n - z)| := by
          rw [hdecomp]
      _ ≤ |my_round x n - x| + |my_round y n - y| + |my_round z n - z| :=
          abs_add_three _ _ _
      _ ≤ 1 / (2 * 10 ^ n) + 1 / (2 * 10 ^ n) + 1 / (2 * 10 ^ n) := by
          gcongr <;> exact abs_my_round_sub_le _ n
      _ = 3 / (2 * 10 ^ n) := by ring
  have hmQ : |(m : ℚ)| ≤ 3 / 2 := by
    rw [hsum] at herr
    rw [abs_div, abs_of_pos hq] at herr
    have h32 : (3:ℚ) / (2 * 10 ^ n) = (3 / 2) / 10 ^ n := by ring
    rw [h32] at herr
    exact (div_le_div_iff_of_pos_right hq).mp herr
  have hmZ : |m| ≤ 1 := by
    have h2 : |m| < 2 := by
      have : (|m| : ℚ) < 2 := lt_of_le_of_lt (by exact_mod_cast hmQ) (by norm_num)
      exact_mod_cast this
    omega
  rw [hsum, abs_div, abs_of_pos hq]
  have hle : (|(m : ℚ)|) ≤ 1 := by
    have : ((|m| : ℤ) : ℚ) ≤ 1 := by exact_mod_cast hmZ
    simpa using this
  calc |(m : ℚ)| / 10 ^ n ≤ 1 / 10 ^ n := by gcongr

theorem nlog10_spec : ∀ fuel m, 1 ≤ m → m ≤ fuel →
    10 ^ (nlog10 fuel m) ≤ m ∧ m < 10 ^ (nlog10 fuel m + 1) := by
  intro fuel
  induction fuel with
  | zero => intro m h1 h2; omega
  | succ f ih =>
    intro m h1 h2
    unfold nlog10
    by_cases hm : m < 10
    · simp only [hm, if_true]
      constructor
      · simpa using h1
      · simpa using hm
    · simp only [hm, if_false]
      have hdiv1 : 1 ≤ m / 10 := by omega
      have hdivf : m / 10 ≤ f := by omega
      obtain ⟨hl, hr⟩ := ih (m / 10) hdiv1 hdivf
      constructor
      · calc 10 ^ (nlog10 f (m/10) + 1) = 10 ^ (nlog10 f (m/10)) * 10 := by ring
          _ ≤ (m/10) * 10 := Nat.mul_le_mul_right 10 hl
          _ ≤ m := by omega
      · calc m < (m/10 + 1) * 10 := by omega
          _ ≤ 10 ^ (nlog10 f (m/10) + 1) * 10 := Nat.mul_le_mul_right 10 hr
          _ = 10 ^ (nlog10 f (m/10) + 1 + 1) := by ring

/-- `ceilLog10` really is `ceil(log10 .)`: the unique exponent sandwiching
its (positive) argument between consecutive powers of 10. -/
theorem ceilLog10_spec (x : ℚ) (hx : 0 < x) :
    (10:ℚ) ^ (ceilLog10 x - 1) < x ∧ x ≤ (10:ℚ) ^ (ceilLog10 x) := by
  have hnum : 1 ≤ x.num.toNat := by
    have := Rat.num_pos.mpr hx
    omega
  have hden : 1 ≤ x.den := x.pos
  obtain ⟨hp1, hp2⟩ := nlog10_spec x.num.toNat x.num.toNat hnum le_rfl
  obtain ⟨hq1, hq2⟩ := nlog10_spec x.den x.den hden le_rfl
  set lp := nlog10 x.num.toNat x.num.toNat with hlp
  set lq := nlog10 x.den x.den with hlq
  have hxeq : x = (x.num.toNat : ℚ) / (x.den : ℚ) := by
    conv_lhs => rw [← Rat.num_div_den x]
    congr 1
    exact_mod_cast (Int.toNat_of_nonneg (Rat.num_pos.mpr hx).le).symm
  have hdenQ : (0:ℚ) < (x.den : ℚ) := by exact_mod_cast x.pos
  have hnumQ : (0:ℚ) < (x.num.toNat : ℚ) := by exact_mod_cast hnum
  have hten : (10:ℚ) ≠ 0 := by norm_num
  have Hp1 : (10:ℚ) ^ (lp:ℤ) ≤ (x.num.toNat : ℚ) := by
    rw [zpow_natCast]; exact_mod_cast hp1
  have Hp2 : (x.num.toNat : ℚ) < (10:ℚ) ^ ((lp:ℤ) + 1) := by
    have hc : ((lp:ℤ) + 1) = ((lp + 1 : ℕ) : ℤ) := by push_cast; ring
    rw [hc, zpow_natCast]; exact_mod_cast hp2
  have Hq1 : (10:ℚ) ^ (lq:ℤ) ≤ (x.den : ℚ) := by
    rw [zpow_natCast]; exact_mod_cast hq1
  have Hq2 : (x.den : ℚ) < (10:ℚ) ^ ((lq:ℤ) + 1) := by
    have hc : ((lq:ℤ) + 1) = ((lq + 1 : ℕ) : ℤ) := by push_cast; ring
    rw [hc, zpow_natCast]; exact_mod_cast hq2
  have hxlow : (10:ℚ) ^ ((lp:ℤ) - (lq:ℤ) - 1) < x := by
    rw [hxeq]
    rw [show (lp:ℤ) - (lq:ℤ) - 1 = (lp:ℤ) - ((lq:ℤ) + 1) by ring, zpow_sub₀ hten]
    rw [div_lt_div_iff₀ (by positivity) hdenQ]
    calc (10:ℚ) ^ (lp:ℤ) * (x.den : ℚ)
        < (10:ℚ) ^ (lp:ℤ) * (10:ℚ) ^ ((lq:ℤ) + 1) :=
          mul_lt_mul_of_pos_left Hq2 (by positivity)
      _ ≤ (x.num.toNat : ℚ) * (10:ℚ) ^ ((lq:ℤ) + 1) :=
          mul_le_mul_of_nonneg_right Hp1 (by positivity)
  have hxhigh : x < (10:ℚ) ^ ((lp:ℤ) - (lq:ℤ) + 1) := by
    rw [hxeq]
    rw [show (lp:ℤ) - (lq:ℤ) + 1 = ((lp:ℤ) + 1) - (lq:ℤ) by ring, zpow_sub₀ hten]
    rw [div_lt_div_iff₀ hdenQ (by positivity)]
    calc (x.num.toNat : ℚ) * (10:ℚ) ^ (lq:ℤ)
        < (10:ℚ) ^ ((lp:ℤ) + 1) * (10:ℚ) ^ (lq:ℤ) :=
          mul_lt_mul_of_pos_right Hp2 (by positivity)
      _ ≤ (10:ℚ) ^ ((lp:ℤ) + 1) * (x.den : ℚ) :=
          mul_le_mul_of_nonneg_left Hq1 (by positivity)
  unfold ceilLog10
  simp only [← hlp, ← hlq]
  by_cases hcase : x ≤ (10:ℚ) ^ ((lp:ℤ) - (lq:ℤ))
  · rw [if_pos hcase]
    exact ⟨hxlow, hcase⟩
  · rw [if_neg hcase]
    refine ⟨?_, ?_⟩
    · have := not_le.mp hcase
      simpa using this
    · exact le_of_lt (by simpa using hxhigh)

/-- `getD` does not depend on the default at in-range indices. -/
theorem getD_irrel {α : Type} : ∀ (l : List α) (i : ℕ), i < l.length →
    ∀ d d' : α, l.getD i d = l.getD i d' := by
  intro l
  induction l with
  | nil => intro i hi; simp at hi
  | cons x xs ih =>
    intro i hi d d'
    cases i with
    | zero => simp
    | succ k =>
      simp only [List.getD_cons_succ]
      exact ih k (by simpa using hi) d d'

/-- The first-minimum index is in range and indexes a minimal value. -/
theorem argminIdx_spec : ∀ (l : List ℚ), l ≠ [] →
    argminIdx l < l.length ∧
    ∀ i, i < l.length → l.getD (argminIdx l) 0 ≤ l.getD i 0 := by
  intro l
  induction l with
  | nil => intro h; exact absurd rfl h
  | cons x xs ih =>
    intro _
    by_cases hxs : xs = []
    · subst hxs
      refine ⟨by simp [argminIdx], ?_⟩
      intro i hi
      simp only [List.length_cons, List.length_nil] at hi
      have hi0 : i = 0 := by omega
      subst hi0
      simp [argminIdx]
    · obtain ⟨hlt, hmin⟩ := ih hxs
      unfold argminIdx
      by_cases hcmp : xs.getD (argminIdx xs) x < x
      · rw [if_pos hcmp]
        refine ⟨by simpa using hlt, ?_⟩
        intro i hi
        have hgd : xs.getD (argminIdx xs) x = xs.getD (argminIdx xs) 0 :=
          getD_irrel xs _ hlt x 0
        cases i with
        | zero =>
          simp only [List.getD_cons_succ, List.getD_cons_zero]
          rw [← hgd]
          exact le_of_lt hcmp
        | succ k =>
          simp only [List.getD_cons_succ]
          exact hmin k (by simpa using hi)
      · rw [if_neg hcmp]
        refine ⟨by simp only [List.length_cons]; omega, ?_⟩
        intro i hi
        cases i with
        | zero => simp
        | succ k =>
          simp only [List.getD_cons_succ, List.getD_cons_zero]
          have hk : k < xs.length := by simpa using hi
          have hgd : xs.getD (argminIdx xs) x = xs.getD (argminIdx xs) 0 :=
            getD_irrel xs _ hlt x 0
        -- x ≤ xs.getD (argminIdx xs) 0 ≤ xs.getD k 0
          have hx : x ≤ xs.getD (argminIdx xs) 0 := by
            rw [← hgd]; exact not_lt.mp hcmp
          exact le_trans hx (hmin k hk)

/-- `getD` of a constant-mapped list with the constant as default is the
constant, at any index. -/
theorem getD_map_const {α : Type} (c : ℚ) :
    ∀ (l : List α) (i : ℕ), (l.map (fun _ => c)).getD i c = c := by
  intro l
  induction l with
  | nil => intro i; simp
  | cons x xs ih =>
    intro i
    cases i with
    | zero => simp
    | succ k => simp only [List.map_cons, List.getD_cons_succ]; exact ih k

/-- `np.argmin` of a constant list is 0 (the first position). -/
theorem argminIdx_map_const {α : Type} (c : ℚ) (l : List α) :
    argminIdx (l.map (fun _ => c)) = 0 := by
  cases l with
  | nil => rfl
  | cons x xs =>
    simp only [List.map_cons]
    unfold argminIdx
    rw [getD_map_const c xs (argminIdx (xs.map (fun _ => c)))]
    simp

/-- Length of the hard-coded inner grid. -/
theorem innerGrid_length : innerGrid.length = 441 := by
  unfold innerGrid
  rw [List.length_map, List.length_range]

/-- Membership in the inner grid. -/
theorem mem_innerGrid (lam : ℤ) :
    lam ∈ innerGrid ↔ ∃ i : ℕ, i < 441 ∧ lam = 390 + (i : ℤ) := by
  unfold innerGrid
  constructor
  · intro h
    obtain ⟨i, hi, h2⟩ := List.mem_map.mp h
    exact ⟨i, List.mem_range.mp hi, h2.symm⟩
  · rintro ⟨i, hi, rfl⟩
    exact List.mem_map.mpr ⟨i, List.mem_range.mpr hi, rfl⟩

/-- Reading the image of the inner grid under `g` at an in-range index. -/
theorem innerGrid_map_getD (g : ℤ → ℚ) (i : ℕ) (hi : i < 441) :
    (innerGrid.map g).getD i 0 = g (390 + (i : ℤ)) := by
  have hlen : i < (innerGrid.map g).length := by
    rw [List.length_map, innerGrid_length]; exact hi
  rw [List.getD_eq_getElem _ _ hlen, List.getElem_map]
  congr 1
  unfold innerGrid
  rw [List.getElem_map, List.getElem_range]

/-- The landmark produced from an argmin over the inner grid is a grid
wavelength attaining the minimum of `g` over the grid. -/
theorem argmin_innerGrid_spec (g : ℤ → ℚ) :
    ((390 + (argminIdx (innerGrid.map g) : ℤ)) ∈ innerGrid) ∧
    ∀ lam ∈ innerGrid, g (390 + (argminIdx (innerGrid.map g) : ℤ)) ≤ g lam := by
  have hne : innerGrid.map g ≠ [] := by
    intro h
    have h2 := congrArg List.length h
    rw [List.length_map, innerGrid_length] at h2
    simp at h2
  obtain ⟨hlt, hmin⟩ := argminIdx_spec (innerGrid.map g) hne
  have hlt441 : argminIdx (innerGrid.map g) < 441 := by
    rwa [List.length_map, innerGrid_length] at hlt
  constructor
  · exact (mem_innerGrid _).mpr ⟨argminIdx (innerGrid.map g), hlt441, rfl⟩
  · intro lam hlam
    obtain ⟨i, hi, rfl⟩ := (mem_innerGrid lam).mp hlam
    have h1 := hmin i (by rw [List.length_map, innerGrid_length]; exact hi)
    rwa [innerGrid_map_getD g _ hlt441, innerGrid_map_getD g i hi] at h1

/-- The `ok` flag of `square_sum` is by definition the test
`lambda_test_min == lambda_ref_min`. -/
theorem squareSum_ok_eq (d : SolverData) (a13 : ℚ) (lamRef : ℤ) :
    (squareSum d a13 lamRef).ok = ((squareSum d a13 lamRef).lamTest == lamRef) := rfl

/-- When `ok` holds, the located minimum wavelength is the current landmark. -/
theorem squareSum_lamTest_eq_of_ok (d : SolverData) (a13 : ℚ) (lamRef : ℤ)
    (h : (squareSum d a13 lamRef).ok = true) :
    (squareSum d a13 lamRef).lamTest = lamRef := by
  rw [squareSum_ok_eq] at h
  exact beq_iff_eq.mp h

/-- Structural zeros and fixed entries of every trial matrix `square_sum`
builds: rows 2 and 3 are `[a21, a22, 0]` and `[0, 0, a33]`. -/
theorem squareSum_mat_structure (d : SolverData) (a13 : ℚ) (lamRef : ℤ) :
    (squareSum d a13 lamRef).mat.a23 = 0 ∧
    (squareSum d a13 lamRef).mat.a31 = 0 ∧
    (squareSum d a13 lamRef).mat.a32 = 0 ∧
    (squareSum d a13 lamRef).mat.a21 = d.a21 ∧
    (squareSum d a13 lamRef).mat.a22 = d.a22 ∧
    (squareSum d a13 lamRef).mat.a33 = d.a33 :=
  ⟨rfl, rfl, rfl, rfl, rfl, rfl⟩

/-- The wavelength `square_sum` reports is the first minimiser of the
modelled x-chromaticity over the inner 1 nm grid. -/
theorem squareSum_lamTest_min (d : SolverData) (a13 : ℚ) (lamRef : ℤ) :
    (squareSum d a13 lamRef).lamTest ∈ innerGrid ∧
    ∀ lam ∈ innerGrid,
      xChrom d (squareSum d a13 lamRef).mat (squareSum d a13 lamRef).lamTest
        ≤ xChrom d (squareSum d a13 lamRef).mat lam :=
  argmin_innerGrid_spec (fun lam => xChrom d (squareSum d a13 lamRef).mat lam)

/-- Every successful run of the solver loop returns the full result of a
`square_sum` call whose `ok` flag is set. -/
theorem solverLoop_eq_some (d : SolverData) :
    ∀ (fuel : ℕ) (l0 : ℤ) (r : SSResult), solverLoop d fuel l0 = some r →
      ∃ lamRef, r = squareSum d (d.fmin lamRef) lamRef ∧ r.ok = true := by
  intro fuel
  induction fuel with
  | zero =>
    intro l0 r h
    simp [solverLoop] at h
  | succ n ih =>
    intro l0 r h
    simp only [solverLoop] at h
    split at h
    · next hok =>
      injection h with h2
      exact ⟨l0, h2.symm, h2 ▸ hok⟩
    · exact ih _ r h

/-- `compute_tabulated` returns exactly the bundles assembled from a
successful solver-loop run. -/
theorem computeTabulated_eq_some (P : Primitives) (fs age res : ℚ) (fuel : ℕ)
    (xyzSig ccDp matDp lmsSig bmDp lmDp : ℕ) (b : Bundle) :
    computeTabulated P fs age res fuel xyzSig ccDp matDp lmsSig bmDp lmDp = some b ↔
    ∃ r, solverLoop (solverDataOf P fs age res xyzSig matDp) fuel 500 = some r ∧
      b = assembleBundle P fs age res xyzSig ccDp matDp lmsSig bmDp lmDp r := by
  unfold computeTabulated
  rw [Option.map_eq_some']
  constructor
  · rintro ⟨r, hr, rfl⟩
    exact ⟨r, hr, rfl⟩
  · rintro ⟨r, hr, rfl⟩
    exact ⟨r, hr, rfl⟩

/-- The returned-field layout of `assembleBundle`. -/
theorem assembleBundle_fields (P : Primitives) (fs age res : ℚ)
    (xyzSig ccDp matDp lmsSig bmDp lmDp : ℕ) (r : SSResult) :
    (assembleBundle P fs age res xyzSig ccDp matDp lmsSig bmDp lmDp r).mat = r.mat ∧
    (assembleBundle P fs age res xyzSig ccDp matDp lmsSig bmDp lmDp r).landmark = r.lamTest ∧
    (assembleBundle P fs age res xyzSig ccDp matDp lmsSig bmDp lmDp r).cc
      = ccTableOf P fs age res xyzSig ccDp r.mat ∧
    (assembleBundle P fs age res xyzSig ccDp matDp lmsSig bmDp lmDp r).bm
      = bmTableOf P fs age res xyzSig matDp bmDp r.mat ∧
    (assembleBundle P fs age res xyzSig ccDp matDp lmsSig bmDp lmDp r).lm
      = lmTableOf P fs age res lmsSig lmDp ∧
    (assembleBundle P fs age res xyzSig ccDp matDp lmsSig bmDp lmDp r).purpleLineCC
      = fixPurpleCC (purpleCCOf P fs age xyzSig ccDp r.mat)
          (purpleBMOf P fs age xyzSig matDp bmDp r.mat) ∧
    (assembleBundle P fs age res xyzSig ccDp matDp lmsSig bmDp lmDp r).purpleLineBM
      = purpleBMOf P fs age xyzSig matDp bmDp r.mat :=
  ⟨rfl, rfl, rfl, rfl, rfl, rfl, rfl⟩

/-- After the hack, the second cc endpoint carries the bm wavelength. -/
theorem fixPurpleCC_wavelength (p q : Triple × Triple) :
    (fixPurpleCC p q).2.1 = q.2.1 := by
  unfold fixPurpleCC
  split
  · next h => exact h
  · rfl

/-- C10: for every invocation of `compute_tabulated` that returns, the
wavelength (first column) of the second endpoint of the returned
`purple_line_cc` equals that of the second endpoint of `purple_line_bm`:
whenever the two independently selected hull edges disagree on that
wavelength, the cc value is overwritten with the bm value before the
return. -/
theorem C10_purple_wavelengths_agree (P : Primitives) (fs age res : ℚ)
    (fuel : ℕ) (xyzSig ccDp matDp lmsSig bmDp lmDp : ℕ) (b : Bundle)
    (hb : computeTabulated P fs age res fuel xyzSig ccDp matDp lmsSig bmDp lmDp
      = some b) :
    b.purpleLineCC.2.1 = b.purpleLineBM.2.1 := by
  obtain ⟨r, _, rfl⟩ := (computeTabulated_eq_some P fs age res fuel
    xyzSig ccDp matDp lmsSig bmDp lmDp b).mp hb
  exact fixPurpleCC_wavelength _ _

/-- C9: every matrix produced by the solver has the structural zeros
(2,3) = (3,1) = (3,2) = 0, and its (3,3) entry equals
`my_round(sum V / sum S, mat_dp)` with both sums over the requested
wavelength grid. -/
theorem C9_matrix_structure (P : Primitives) (fs age res : ℚ) (fuel : ℕ)
    (xyzSig ccDp matDp lmsSig bmDp lmDp : ℕ) (b : Bundle)
    (hb : computeTabulated P fs age res fuel xyzSig ccDp matDp lmsSig bmDp lmDp
      = some b) :
    b.mat.a23 = 0 ∧ b.mat.a31 = 0 ∧ b.mat.a32 = 0 ∧
    b.mat.a33 = my_round
      ((((gridOf res).map (vSplineOf P fs age xyzSig matDp)).sum) /
       (((gridOf res).map (sSplineOf P fs age)).sum)) matDp := by
  obtain ⟨r, hr, rfl⟩ := (computeTabulated_eq_some P fs age res fuel
    xyzSig ccDp matDp lmsSig bmDp lmDp b).mp hb
  obtain ⟨lamRef, rfl, _⟩ := solverLoop_eq_some _ fuel 500 r hr
  rw [(assembleBundle_fields P fs age res xyzSig ccDp matDp lmsSig bmDp lmDp _).1]
  obtain ⟨h23, h31, h32, _, _, h33⟩ := squareSum_mat_structure
    (solverDataOf P fs age res xyzSig matDp) _ lamRef
  exact ⟨h23, h31, h32, by rw [h33]; rfl⟩

/-- C8: when the solver loop returns, the returned matrix and landmark are
self-consistent: the landmark lies on the 1 nm grid 390..830 and the
modelled x-chromaticity of the returned matrix attains its global minimum
over that grid at the landmark. -/
theorem C8_landmark_is_argmin (d : SolverData) (fuel : ℕ) (l0 : ℤ)
    (r : SSResult) (h : solverLoop d fuel l0 = some r) :
    r.lamTest ∈ innerGrid ∧
    ∀ lam ∈ innerGrid, xChrom d r.mat r.lamTest ≤ xChrom d r.mat lam := by
  obtain ⟨lamRef, rfl, _⟩ := solverLoop_eq_some d fuel l0 r h
  exact squareSum_lamTest_min d _ lamRef

/-- C1 (amended): the outer loop carries no iteration counter; it can only
exit through the `ok` flag, i.e. when the landmark reproduces itself under
one more solver step — a genuine fixed point.  (No ConvergenceError exists
in the module; non-stabilising data loops forever, cf. the
counterexample.) -/
theorem C1_loop_exits_only_at_fixed_point (d : SolverData) (fuel : ℕ)
    (l0 : ℤ) (r : SSResult) (h : solverLoop d fuel l0 = some r) :
    solverStep d r.lamTest = r.lamTest ∧ r.ok = true := by
  obtain ⟨lamRef, rfl, hok⟩ := solverLoop_eq_some d fuel l0 r h
  have hfix := squareSum_lamTest_eq_of_ok d (d.fmin lamRef) lamRef hok
  refine ⟨?_, hok⟩
  unfold solverStep
  rw [hfix]
  exact hfix

/-- C1 (counterexample): the claim asserts an enforced maximum iteration
count after which non-stabilisation is signalled; in fact no bound `B`
makes the loop terminate on all bodies — the body that always reports
`ok = false` runs forever, and no error value is ever produced. -/
theorem C1_no_iteration_bound :
    ¬ ∃ B : ℕ, ∀ (body : ℤ → ℤ × Bool) (l0 : ℤ),
      (whileLoop body B l0).isSome = true := by
  rintro ⟨B, hB⟩
  have hnone : ∀ (n : ℕ) (l : ℤ), whileLoop (fun l => (l + 1, false)) n l = none := by
    intro n
    induction n with
    | zero => intro l; rfl
    | succ k ih => intro l; simpa [whileLoop] using ih (l + 1)
  have := hB (fun l => (l + 1, false)) 0
  rw [hnone B 0] at this
  simp at this

/-- C3 (amended): `compute_tabulated` performs no input validation at all:
whether a bundle is produced depends only on the solver loop converging
within the given fuel — identically for valid and invalid (nonpositive)
`field_size`, `age`, `resolution`. -/
theorem C3_no_parameter_validation (P : Primitives) (fs age res : ℚ)
    (fuel : ℕ) (xyzSig ccDp matDp lmsSig bmDp lmDp : ℕ) :
    (computeTabulated P fs age res fuel xyzSig ccDp matDp lmsSig bmDp lmDp).isSome
      = (solverLoop (solverDataOf P fs age res xyzSig matDp) fuel 500).isSome := by
  unfold computeTabulated
  rw [Option.isSome_map']

/-- The three chromaticity coordinates of a triple with nonzero sum add to
exactly 1 before rounding. -/
theorem cc_coords_sum_one (t : Triple) (h : t.1 + t.2.1 + t.2.2 ≠ 0) :
    ccxOf t + ccyOf t + cczOf t = 1 := by
  unfold ccxOf ccyOf cczOf
  field_simp

/-- Normalisation denominators sum to one. -/
theorem div_add3_eq_one {a b c : ℚ} (h : a + b + c ≠ 0) :
    a / (a + b + c) + b / (a + b + c) + c / (a + b + c) = 1 := by
  field_simp

/-- The `lms_N` table is the grid image of its per-wavelength row values. -/
theorem lmsNOf_eq_map (P : Primitives) (fs age res : ℚ) (lmsSig lmDp : ℕ) :
    lmsNOf P fs age res lmsSig lmDp = (gridOf res).map (fun t =>
      (t, (lmsNRowAt P fs age lmsSig lmDp t).1,
       (lmsNRowAt P fs age lmsSig lmDp t).2.1,
       (lmsNRowAt P fs age lmsSig lmDp t).2.2)) := by
  unfold lmsNOf lmsNRowAt
  by_cases h5 : 5 < lmDp
  · rw [if_pos h5]
    unfold lmsTableOf
    apply List.map_congr_left
    intro t _
    rw [if_pos h5]
  · rw [if_neg h5]
    unfold lmsStdTableOf
    apply List.map_congr_left
    intro t _
    rw [if_neg h5]

/-- C2 (amended): for every row of the returned `cc` and `lm` tables, the
three coordinates sum to 1 within one rounding quantum (`10^-cc_dp`,
`10^-lm_dp`), provided the corresponding normalisation denominators are
nonzero (where they vanish the source produces NaN).  The `bm` table does
NOT satisfy this: only its first two coordinates are a partition of
luminance, the third is an independently normalised S coordinate (see the
counterexample). -/
theorem C2_cc_lm_row_sums_near_one (P : Primitives) (fs age res : ℚ)
    (fuel : ℕ) (xyzSig ccDp matDp lmsSig bmDp lmDp : ℕ) (b : Bundle)
    (hb : computeTabulated P fs age res fuel xyzSig ccDp matDp lmsSig bmDp lmDp
      = some b)
    (hcc : ∀ t ∈ gridOf res, xyzSumAt P fs age xyzSig b.mat t ≠ 0)
    (hlm : ∀ t ∈ gridOf res, lmsNnSumAt P fs age res lmsSig lmDp t ≠ 0) :
    (∀ row ∈ b.cc, |row.2.1 + row.2.2.1 + row.2.2.2 - 1| ≤ 1 / 10 ^ ccDp) ∧
    (∀ row ∈ b.lm, |row.2.1 + row.2.2.1 + row.2.2.2 - 1| ≤ 1 / 10 ^ lmDp) := by
  obtain ⟨r, _, rfl⟩ := (computeTabulated_eq_some P fs age res fuel
    xyzSig ccDp matDp lmsSig bmDp lmDp b).mp hb
  constructor
  · intro row hrow
    rw [(assembleBundle_fields P fs age res xyzSig ccDp matDp lmsSig bmDp
      lmDp r).2.2.1] at hrow
    unfold ccTableOf at hrow
    obtain ⟨xrow, hxrow, rfl⟩ := List.mem_map.mp hrow
    unfold xyzTableOf at hxrow
    obtain ⟨t, ht, rfl⟩ := List.mem_map.mp hxrow
    have hsum : xyzSumAt P fs age xyzSig r.mat t ≠ 0 := hcc t ht
    exact round3_sum_near_one ccDp (cc_coords_sum_one _ hsum)
  · intro row hrow
    rw [(assembleBundle_fields P fs age res xyzSig ccDp matDp lmsSig bmDp
      lmDp r).2.2.2.2.1] at hrow
    unfold lmTableOf at hrow
    obtain ⟨nrow, hnrow, rfl⟩ := List.mem_map.mp hrow
    unfold lmsNnOf at hnrow
    rw [lmsNOf_eq_map] at hnrow
    rw [List.map_map] at hnrow
    obtain ⟨t, ht, rfl⟩ := List.mem_map.mp hnrow
    have hne := hlm t ht
    unfold lmsNnSumAt at hne
    rw [lmsNOf_eq_map] at hne
    exact round3_sum_near_one lmDp (div_add3_eq_one hne)

/-- C4: the scalar branch of `significant_figures` takes `log10` of the raw
input without `abs`, so a negative scalar yields NaN (`none`) — the sign is
not preserved there; the array branch, which does use `abs`, rounds `-2` to
`-2` as the claim expects, and a positive scalar also behaves as claimed. -/
theorem C4_negative_scalar_gives_nan :
    significant_figures_scalar (-2) 2 = none ∧
    significant_figures_elem (-2) 2 = -2 ∧
    significant_figures_scalar 2 2 = some 2 := by
  refine ⟨by decide, by decide, by decide⟩

/-- Transporting a hull-edge certificate along a permutation. -/
theorem isHullEdgePts_perm_mp (pts1 pts2 : List (ℚ × ℚ))
    (hperm : pts1.Perm pts2) (p q : ℚ × ℚ)
    (h : isHullEdgePts pts1 p q) : isHullEdgePts pts2 p q := by
  obtain ⟨hp, hq, hne, hside⟩ := h
  refine ⟨hperm.mem_iff.mp hp, hperm.mem_iff.mp hq, hne, ?_⟩
  rcases hside with h | h
  · exact Or.inl (fun r hr => h r (hperm.mem_iff.mpr hr))
  · exact Or.inr (fun r hr => h r (hperm.mem_iff.mpr hr))

/-- C5 (amended): the SET of hull edges, as point pairs, is invariant under
reordering of the input cloud; the purple-line *selection* by maximal index
difference is not (see the counterexample), so reordering can change the
reported endpoints. -/
theorem C5_hull_edge_set_perm_invariant (pts1 pts2 : List (ℚ × ℚ))
    (hperm : pts1.Perm pts2) (p q : ℚ × ℚ) :
    isHullEdgePts pts1 p q ↔ isHullEdgePts pts2 p q :=
  ⟨isHullEdgePts_perm_mp pts1 pts2 hperm p q,
   isHullEdgePts_perm_mp pts2 pts1 hperm.symm p q⟩

/-- C5 (witness). -/
theorem C5_hull_edge_set_perm_invariant_witness :
    (([((0:ℚ), (0:ℚ)), (1, 0)] : List (ℚ × ℚ)).Perm [(1, 0), (0, 0)]) ∧
    (isHullEdgePts [((0:ℚ), (0:ℚ)), (1, 0)] (0, 0) (1, 0) ↔
      isHullEdgePts [((1:ℚ), (0:ℚ)), (0, 0)] (0, 0) (1, 0)) :=
  ⟨List.Perm.swap (1, 0) (0, 0) [],
   C5_hull_edge_set_perm_invariant _ _ (List.Perm.swap (1, 0) (0, 0) []) _ _⟩

/-- C5 (counterexample): a convex pentagon, fed in two different orders
(positions 0 and 2 exchanged), is a permuted copy of itself, yet the
index-difference-maximal hull edge — hence the purple line — changes:
endpoints (400,0,0)/(600,-1,3) for the first ordering, but
(500,5,3)/(550,2,5) for the second.  Both maximisers are unique, so this is
independent of the (unspecified) qhull edge-reporting order. -/
theorem C5_selection_depends_on_order :
    (([(400, 0, 0), (450, 4, 0), (500, 5, 3), (550, 2, 5), (600, -1, 3)] :
        List Triple).Perm
      [(500, 5, 3), (450, 4, 0), (400, 0, 0), (550, 2, 5), (600, -1, 3)]) ∧
    purpleLineOf [(400, 0, 0), (450, 4, 0), (500, 5, 3), (550, 2, 5), (600, -1, 3)]
      = ((400, 0, 0), (600, -1, 3)) ∧
    purpleLineOf [(500, 5, 3), (450, 4, 0), (400, 0, 0), (550, 2, 5), (600, -1, 3)]
      = ((500, 5, 3), (550, 2, 5)) ∧
    purpleLineOf [(400, 0, 0), (450, 4, 0), (500, 5, 3), (550, 2, 5), (600, -1, 3)]
      ≠ purpleLineOf [(500, 5, 3), (450, 4, 0), (400, 0, 0), (550, 2, 5), (600, -1, 3)] := by
  refine ⟨?_, by decide, by decide, by decide⟩
  have s1 : ([(400, 0, 0), (450, 4, 0), (500, 5, 3), (550, 2, 5), (600, -1, 3)] :
      List Triple).Perm
      [(450, 4, 0), (400, 0, 0), (500, 5, 3), (550, 2, 5), (600, -1, 3)] :=
    List.Perm.swap (450, 4, 0) (400, 0, 0) [(500, 5, 3), (550, 2, 5), (600, -1, 3)]
  have s2 : ([(450, 4, 0), (400, 0, 0), (500, 5, 3), (550, 2, 5), (600, -1, 3)] :
      List Triple).Perm
      [(450, 4, 0), (500, 5, 3), (400, 0, 0), (550, 2, 5), (600, -1, 3)] :=
    List.Perm.cons (450, 4, 0)
      (List.Perm.swap (500, 5, 3) (400, 0, 0) [(550, 2, 5), (600, -1, 3)])
  have s3 : ([(450, 4, 0), (500, 5, 3), (400, 0, 0), (550, 2, 5), (600, -1, 3)] :
      List Triple).Perm
      [(500, 5, 3), (450, 4, 0), (400, 0, 0), (550, 2, 5), (600, -1, 3)] :=
    List.Perm.swap (500, 5, 3) (450, 4, 0) [(400, 0, 0), (550, 2, 5), (600, -1, 3)]
  exact s1.trans (s2.trans s3)

/-- C6 (counterexample): there is no jump at age 60 — the value of the
below-60 branch at 60 coincides with the function value (both are 1.56),
also at the density level. -/
theorem C6_no_jump_at_60 :
    ocularCoeffBelow 60 = ocularCoeff 60 ∧ ocularCoeff 60 = 1.56 ∧
    ocularCoeffBelow 60 * 1 + 0 = ocularDensity 60 1 0 := by
  refine ⟨by decide, by decide, by decide⟩

/-- C6 (amended): `ocular` applies `1 + 0.02*(age-32)` below 60 and
`1.56 + 0.0667*(age-60)` from 60 on, adds `docul2` unweighted — and the
resulting coefficient (hence density) is CONTINUOUS at 60: it is Lipschitz
around 60 with constant 0.0667, so only the slope changes there. -/
theorem C6_ocular_piecewise_continuous_at_60 :
    (∀ age : ℚ, age < 60 → ocularCoeff age = ocularCoeffBelow age) ∧
    (∀ age : ℚ, 60 ≤ age → ocularCoeff age = ocularCoeffAbove age) ∧
    (∀ age d1 d2 : ℚ, ocularDensity age d1 d2 = ocularCoeff age * d1 + d2) ∧
    (∀ age : ℚ, |ocularCoeff age - ocularCoeff 60| ≤ 0.0667 * |age - 60|) := by
  have h60 : ocularCoeff 60 = 1.56 := by decide
  refine ⟨?_, ?_, fun _ _ _ => rfl, ?_⟩
  · intro age h
    unfold ocularCoeff ocularCoeffBelow
    rw [if_pos h]
  · intro age h
    unfold ocularCoeff ocularCoeffAbove
    rw [if_neg (not_lt.mpr h)]
  · intro age
    rw [h60]
    unfold ocularCoeff
    by_cases h : age < 60
    · rw [if_pos h]
      have hd : 1 + 0.02 * (age - 32) - 1.56 = 0.02 * (age - 60) := by ring
      rw [hd, abs_mul]
      have h002 : |(0.02 : ℚ)| = 0.02 := by decide
      rw [h002]
      have hc : (0.02 : ℚ) ≤ 0.0667 := by norm_num
      exact mul_le_mul_of_nonneg_right hc (abs_nonneg _)
    · rw [if_neg h]
      have hd : 1.56 + 0.0667 * (age - 60) - 1.56 = 0.0667 * (age - 60) := by ring
      rw [hd, abs_mul]
      have h0667 : |(0.0667 : ℚ)| = 0.0667 := by decide
      rw [h0667]

/-- C6 (witness). -/
theorem C6_ocular_witness :
    ((30:ℚ) < 60 ∧ ocularCoeff 30 = ocularCoeffBelow 30) ∧
    ((60:ℚ) ≤ 70 ∧ ocularCoeff 70 = ocularCoeffAbove 70) ∧
    ocularDensity 30 2 3 = ocularCoeff 30 * 2 + 3 ∧
    |ocularCoeff 59 - ocularCoeff 60| ≤ 0.0667 * |(59:ℚ) - 60| :=
  ⟨⟨by norm_num, C6_ocular_piecewise_continuous_at_60.1 30 (by norm_num)⟩,
   ⟨by norm_num, C6_ocular_piecewise_continuous_at_60.2.1 70 (by norm_num)⟩,
   C6_ocular_piecewise_continuous_at_60.2.2.1 30 2 3,
   C6_ocular_piecewise_continuous_at_60.2.2.2 59⟩

/-- Blending with weight `alpha = 0` keeps the first knot list. -/
theorem zipWith_blend_zero : ∀ (l1 l2 : List ℚ), l1.length = l2.length →
    List.zipWith (fun a b => (1 - 0) * a + 0 * b) l1 l2 = l1 := by
  intro l1
  induction l1 with
  | nil => intro l2 _; rfl
  | cons x xs ih =>
    intro l2 hlen
    cases l2 with
    | nil => simp at hlen
    | cons y ys =>
      simp only [List.zipWith_cons_cons]
      rw [ih ys (by simpa using hlen)]
      norm_num

/-- Blending with weight `alpha = 1` keeps the second knot list. -/
theorem zipWith_blend_one : ∀ (l1 l2 : List ℚ), l1.length = l2.length →
    List.zipWith (fun a b => (1 - 1) * a + 1 * b) l1 l2 = l2 := by
  intro l1
  induction l1 with
  | nil =>
    intro l2 hlen
    cases l2 with
    | nil => rfl
    | cons y ys => simp at hlen
  | cons x xs ih =>
    intro l2 hlen
    cases l2 with
    | nil => simp at hlen
    | cons y ys =>
      simp only [List.zipWith_cons_cons]
      rw [ih ys (by simpa using hlen)]
      norm_num

/-- Forcing the first entry to the value it already has is the identity. -/
theorem setFirst_eq (l : List ℚ) (v : ℚ) (hne : l ≠ []) (h : l.headD 0 = v) :
    setFirst v l = l := by
  cases l with
  | nil => exact absurd rfl hne
  | cons x xs =>
    simp only [List.headD_cons] at h
    simp [setFirst, h]

/-- Forcing the last entry to the value it already has is the identity. -/
theorem setLast_eq : ∀ (l : List ℚ) (v : ℚ), l ≠ [] →
    (l.getLast?).getD 0 = v → setLast v l = l := by
  intro l
  induction l with
  | nil => intro v hne _; exact absurd rfl hne
  | cons x xs ih =>
    intro v _ h
    cases xs with
    | nil =>
      simp only [List.getLast?_singleton, Option.getD_some] at h
      simp [setLast, h]
    | cons y ys =>
      rw [List.getLast?_cons_cons] at h
      unfold setLast
      rw [ih v (by simp) h]

/-- Linear interpolation through diagonal nodes is the identity on the knot
span. -/
theorem linInterp_diag : ∀ (ks : List ℚ), List.Chain' (· < ·) ks →
    ∀ t : ℚ, ks.headD 0 ≤ t → t ≤ (ks.getLast?).getD 0 →
    linInterp (ks.zip ks) t = t := by
  intro ks
  induction ks with
  | nil =>
    intro _ t h1 h2
    simp only [List.headD_nil] at h1
    simp only [List.getLast?_nil, Option.getD_none] at h2
    have ht : t = 0 := le_antisymm h2 h1
    simp [linInterp, ht]
  | cons k ks ih =>
    intro hch t h1 h2
    cases ks with
    | nil =>
      simp only [List.headD_cons] at h1
      simp only [List.getLast?_singleton, Option.getD_some] at h2
      have ht : t = k := le_antisymm h2 h1
      simp [linInterp, ht]
    | cons k2 rest =>
      rw [List.chain'_cons] at hch
      obtain ⟨hk12, hch2⟩ := hch
      simp only [List.zip_cons_cons]
      unfold linInterp
      by_cases ht : t ≤ k2
      · rw [if_pos ht]
        have hne : k2 - k ≠ 0 := by
          intro h0
          have : k2 = k := by linarith
          exact absurd this (ne_of_gt hk12)
        field_simp
      · rw [if_neg ht]
        have h1' : (k2 :: rest).headD 0 ≤ t := by
          simp only [List.headD_cons]
          linarith [not_le.mp ht]
        have h2' : t ≤ ((k2 :: rest).getLast?).getD 0 := by
          rwa [List.getLast?_cons_cons] at h2
        simpa using ih hch2 t h1' h2'

/-- In a strictly sorted table the head wavelength is below every tail
wavelength. -/
theorem chain'_head_lt : ∀ (l : List (ℚ × ℚ)) (p : ℚ × ℚ),
    List.Chain' (fun a b => a.1 < b.1) (p :: l) → ∀ q ∈ l, p.1 < q.1 := by
  intro l
  induction l with
  | nil => intro p _ q hq; simp at hq
  | cons r rest ih =>
    intro p hch q hq
    rw [List.chain'_cons] at hch
    obtain ⟨hpr, hch2⟩ := hch
    rcases List.mem_cons.mp hq with rfl | hq2
    · exact hpr
    · exact lt_trans hpr (ih r hch2 q hq2)

/-- A strictly-sorted interpolation table is reproduced at its nodes by
`linInterp` — the property abstract interpolants are assumed to share. -/
theorem linInterp_node : ∀ (tab : List (ℚ × ℚ)),
    List.Chain' (fun p q => p.1 < q.1) tab →
    ∀ x y : ℚ, (x, y) ∈ tab → linInterp tab x = y := by
  intro tab
  induction tab with
  | nil => intro _ x y hm; simp at hm
  | cons a tab' ih =>
    intro hch x y hm
    obtain ⟨a1, a2⟩ := a
    cases tab' with
    | nil =>
      rcases List.mem_cons.mp hm with h | h
      · rw [Prod.mk.injEq] at h
        obtain ⟨rfl, rfl⟩ := h
        simp [linInterp]
      · simp at h
    | cons c rest =>
      obtain ⟨c1, c2⟩ := c
      rw [List.chain'_cons] at hch
      obtain ⟨hac, hch2⟩ := hch
      rcases List.mem_cons.mp hm with h | h2
      · rw [Prod.mk.injEq] at h
        obtain ⟨rfl, rfl⟩ := h
        unfold linInterp
        rw [if_pos (le_of_lt hac)]
        simp
      · rcases List.mem_cons.mp h2 with h | h3
        · rw [Prod.mk.injEq] at h
          obtain ⟨rfl, rfl⟩ := h
          unfold linInterp
          rw [if_pos le_rfl]
          have hne : x - a1 ≠ 0 := sub_ne_zero.mpr (ne_of_gt hac)
          field_simp
        · have hcx : c1 < x := chain'_head_lt rest (c1, c2) hch2 (x, y) h3
          unfold linInterp
          rw [if_neg (not_le.mpr hcx)]
          exact ih hch2 x y (List.mem_cons_of_mem _ h3)

/-- C7: the blended reference chromaticity locus coincides with the legacy
loci at the blend endpoints: at `field_size = 2` (alpha 0) the model
reproduces, at every tabulated wavelength, exactly the CIE 1931
chromaticities `cc31 = xyz31` row-normalised; at `field_size = 10` (alpha 1)
it reproduces the CIE 1964 chromaticities `cc64`.  Hypotheses: the abstract
cubic interpolant `P.interp` reproduces nodes of strictly sorted tables
(true of any interpolant), the data tables are strictly sorted in
wavelength with knots strictly increasing, wavelengths span `[360, 830]`
with those endpoints, and the rows have nonzero sums. -/
theorem C7_blend_endpoints_exact (P : Primitives)
    (Hexact : ∀ (tab : List (ℚ × ℚ)) (x y : ℚ),
      List.Chain' (fun p q => p.1 < q.1) tab → (x, y) ∈ tab → P.interp tab x = y)
    (H31chain : List.Chain' (fun p q : Row4 => p.1 < q.1) P.xyz31)
    (H64chain : List.Chain' (fun p q : Row4 => p.1 < q.1) P.xyz64)
    (H31knots : List.Chain' (· < ·) (knotsOf (ccFromXYZ P.xyz31)))
    (H64knots : List.Chain' (· < ·) (knotsOf (ccFromXYZ P.xyz64)))
    (H31head : (knotsOf (ccFromXYZ P.xyz31)).headD 0 = 360)
    (H31last : ((knotsOf (ccFromXYZ P.xyz31)).getLast?).getD 0 = 830)
    (H64head : (knotsOf (ccFromXYZ P.xyz64)).headD 0 = 360)
    (H64last : ((knotsOf (ccFromXYZ P.xyz64)).getLast?).getD 0 = 830)
    (H31range : ∀ r ∈ P.xyz31, 360 ≤ r.1 ∧ r.1 ≤ 830)
    (H64range : ∀ r ∈ P.xyz64, 360 ≤ r.1 ∧ r.1 ≤ 830)
    (H31sum : ∀ r ∈ P.xyz31, r.2.1 + r.2.2.1 + r.2.2.2 ≠ 0)
    (H64sum : ∀ r ∈ P.xyz64, r.2.1 + r.2.2.1 + r.2.2.2 ≠ 0) :
    (∀ r ∈ P.xyz31, chromIntRow P.interp P.xyz31 P.xyz64 2 r.1
       = (r.2.1 / (r.2.1 + r.2.2.1 + r.2.2.2),
          r.2.2.1 / (r.2.1 + r.2.2.1 + r.2.2.2),
          r.2.2.2 / (r.2.1 + r.2.2.1 + r.2.2.2))) ∧
    (∀ r ∈ P.xyz64, chromIntRow P.interp P.xyz31 P.xyz64 10 r.1
       = (r.2.1 / (r.2.1 + r.2.2.1 + r.2.2.2),
          r.2.2.1 / (r.2.1 + r.2.2.1 + r.2.2.2),
          r.2.2.2 / (r.2.1 + r.2.2.1 + r.2.2.2))) := by
  have hk31ne : knotsOf (ccFromXYZ P.xyz31) ≠ [] := by
    unfold knotsOf; simp
  have hk64ne : knotsOf (ccFromXYZ P.xyz64) ≠ [] := by
    unfold knotsOf; simp
  have hklen : (knotsOf (ccFromXYZ P.xyz31)).length
      = (knotsOf (ccFromXYZ P.xyz64)).length := by
    unfold knotsOf; rfl
  have hcc31chain : List.Chain' (fun p q : Row4 => p.1 < q.1) (ccFromXYZ P.xyz31) := by
    unfold ccFromXYZ
    rw [List.chain'_map]
    exact H31chain
  have hcc64chain : List.Chain' (fun p q : Row4 => p.1 < q.1) (ccFromXYZ P.xyz64) := by
    unfold ccFromXYZ
    rw [List.chain'_map]
    exact H64chain
  have hchx31 : List.Chain' (fun p q : ℚ × ℚ => p.1 < q.1)
      ((ccFromXYZ P.xyz31).map (fun rr => (rr.1, rr.2.1))) := by
    rw [List.chain'_map]
    exact hcc31chain
  have hchy31 : List.Chain' (fun p q : ℚ × ℚ => p.1 < q.1)
      ((ccFromXYZ P.xyz31).map (fun rr => (rr.1, rr.2.2.1))) := by
    rw [List.chain'_map]
    exact hcc31chain
  have hchx64 : List.Chain' (fun p q : ℚ × ℚ => p.1 < q.1)
      ((ccFromXYZ P.xyz64).map (fun rr => (rr.1, rr.2.1))) := by
    rw [List.chain'_map]
    exact hcc64chain
  have hchy64 : List.Chain' (fun p q : ℚ × ℚ => p.1 < q.1)
      ((ccFromXYZ P.xyz64).map (fun rr => (rr.1, rr.2.2.1))) := by
    rw [List.chain'_map]
    exact hcc64chain
  constructor
  · intro r hr
    obtain ⟨hrlo, hrhi⟩ := H31range r hr
    have hsum := H31sum r hr
    have hzero : alphaOf 2 = 0 := by norm_num [alphaOf]
    have hknots : blendedKnots (alphaOf 2) (knotsOf (ccFromXYZ P.xyz31))
        (knotsOf (ccFromXYZ P.xyz64)) = knotsOf (ccFromXYZ P.xyz31) := by
      rw [hzero]
      unfold blendedKnots
      rw [zipWith_blend_zero _ _ hklen, setFirst_eq _ _ hk31ne H31head,
        setLast_eq _ _ hk31ne H31last]
    have hid : linInterp ((knotsOf (ccFromXYZ P.xyz31)).zip
        (knotsOf (ccFromXYZ P.xyz31))) r.1 = r.1 :=
      linInterp_diag _ H31knots r.1 (by rw [H31head]; exact hrlo)
        (by rw [H31last]; exact hrhi)
    have hmx : (r.1, r.2.1 / (r.2.1 + r.2.2.1 + r.2.2.2))
        ∈ (ccFromXYZ P.xyz31).map (fun rr => (rr.1, rr.2.1)) :=
      List.mem_map_of_mem _ (List.mem_map_of_mem _ hr)
    have hmy : (r.1, r.2.2.1 / (r.2.1 + r.2.2.1 + r.2.2.2))
        ∈ (ccFromXYZ P.xyz31).map (fun rr => (rr.1, rr.2.2.1)) :=
      List.mem_map_of_mem _ (List.mem_map_of_mem _ hr)
    simp only [chromIntRow]
    rw [hknots, hid]
    rw [Hexact _ _ _ hchx31 hmx, Hexact _ _ _ hchy31 hmy, hzero]
    simp only [Prod.mk.injEq]
    refine ⟨by ring, by ring, ?_⟩
    field_simp
    ring
  · intro r hr
    obtain ⟨hrlo, hrhi⟩ := H64range r hr
    have hsum := H64sum r hr
    have hone : alphaOf 10 = 1 := by norm_num [alphaOf]
    have hknots : blendedKnots (alphaOf 10) (knotsOf (ccFromXYZ P.xyz31))
        (knotsOf (ccFromXYZ P.xyz64)) = knotsOf (ccFromXYZ P.xyz64) := by
      rw [hone]
      unfold blendedKnots
      rw [zipWith_blend_one _ _ hklen, setFirst_eq _ _ hk64ne H64head,
        setLast_eq _ _ hk64ne H64last]
    have hid : linInterp ((knotsOf (ccFromXYZ P.xyz64)).zip
        (knotsOf (ccFromXYZ P.xyz64))) r.1 = r.1 :=
      linInterp_diag _ H64knots r.1 (by rw [H64head]; exact hrlo)
        (by rw [H64last]; exact hrhi)
    have hmx : (r.1, r.2.1 / (r.2.1 + r.2.2.1 + r.2.2.2))
        ∈ (ccFromXYZ P.xyz64).map (fun rr => (rr.1, rr.2.1)) :=
      List.mem_map_of_mem _ (List.mem_map_of_mem _ hr)
    have hmy : (r.1, r.2.2.1 / (r.2.1 + r.2.2.1 + r.2.2.2))
        ∈ (ccFromXYZ P.xyz64).map (fun rr => (rr.1, rr.2.2.1)) :=
      List.mem_map_of_mem _ (List.mem_map_of_mem _ hr)
    simp only [chromIntRow]
    rw [hknots, hid]
    rw [Hexact _ _ _ hchx64 hmx, Hexact _ _ _ hchy64 hmy, hone]
    simp only [Prod.mk.injEq]
    refine ⟨by ring, by ring, ?_⟩
    field_simp
    ring


/-! ### Evaluation on the demo oracles -/

/-- A three-node constant table interpolates to its constant everywhere. -/
theorem linInterp_const3 (a b c v t : ℚ) :
    linInterp [(a, v), (b, v), (c, v)] t = v := by
  unfold linInterp
  split_ifs with h
  · simp
  · simp [linInterp]

/-- The demo L spline is constant 1. -/
theorem demo_lSpline (fs age t : ℚ) : lSplineOf demoP fs age t = 1 :=
  linInterp_const3 390 610 830 1 t

/-- The demo M spline is constant 1. -/
theorem demo_mSpline (fs age t : ℚ) : mSplineOf demoP fs age t = 1 :=
  linInterp_const3 390 610 830 1 t

/-- The demo S spline is constant 1. -/
theorem demo_sSpline (fs age t : ℚ) : sSplineOf demoP fs age t = 1 :=
  linInterp_const3 390 610 830 1 t

/-- The demo standard-precision L spline is constant 1. -/
theorem demo_lsSpline (fs age : ℚ) (lmsSig : ℕ) (t : ℚ) :
    lsSplineOf demoP fs age lmsSig t = 1 :=
  linInterp_const3 390 610 830 1 t

/-- The demo standard-precision M spline is constant 1. -/
theorem demo_msSpline (fs age : ℚ) (lmsSig : ℕ) (t : ℚ) :
    msSplineOf demoP fs age lmsSig t = 1 :=
  linInterp_const3 390 610 830 1 t

/-- The demo standard-precision S spline is constant 1. -/
theorem demo_ssSpline (fs age : ℚ) (lmsSig : ℕ) (t : ℚ) :
    ssSplineOf demoP fs age lmsSig t = 1 :=
  linInterp_const3 390 610 830 1 t

/-- The demo V(λ) spline is constant 1. -/
theorem demo_vSpline (fs age : ℚ) (xyzSig matDp : ℕ) (t : ℚ) :
    vSplineOf demoP fs age xyzSig matDp t = 1 :=
  linInterp_const3 390 610 830 1 t

/-- The 220 nm wavelength grid. -/
theorem grid220 : gridOf 220 = [390, 610, 830] := by decide

/-- Projections of the demo solver data. -/
theorem demoData_l (fs age : ℚ) :
    (demoData fs age).l = lSplineOf demoP fs age := rfl

theorem demoData_m (fs age : ℚ) :
    (demoData fs age).m = mSplineOf demoP fs age := rfl

theorem demoData_s (fs age : ℚ) :
    (demoData fs age).s = sSplineOf demoP fs age := rfl

theorem demoData_v (fs age : ℚ) :
    (demoData fs age).v = vSplineOf demoP fs age 7 8 := rfl

theorem demoData_lambdas (fs age : ℚ) :
    (demoData fs age).lambdas = [390, 610, 830] := grid220

theorem demoData_a21 (fs age : ℚ) : (demoData fs age).a21 = 1/2 := rfl

theorem demoData_a22 (fs age : ℚ) : (demoData fs age).a22 = 1/2 := rfl

theorem demoData_matDp (fs age : ℚ) : (demoData fs age).matDp = 8 := rfl

theorem demoData_fmin (fs age : ℚ) (lam : ℤ) :
    (demoData fs age).fmin lam = 0 := rfl

/-- Rounding zero gives zero. -/
theorem my_round_zero (n : ℕ) : my_round 0 n = 0 := by
  simp [my_round]

/-- The demo `a33` is 1: both grid sums are 3. -/
theorem demo_a33 (fs age : ℚ) : (demoData fs age).a33 = 1 := by
  show a33Of demoP fs age 220 7 8 = 1
  unfold a33Of
  rw [grid220]
  simp only [List.map_cons, List.map_nil, demo_vSpline, demo_sSpline]
  decide

/-- With unit landmark responses and equal L/M grid sums the `a11`
closed form degenerates to a division by zero, which is 0 in ℚ — matching
numpy only in that the demo pipeline never consumes the value. -/
theorem squareSumA11_degenerate (a13 a21 a22 a33 sr S Ss Sv x : ℚ) :
    squareSumA11 a13 a21 a22 a33 1 1 sr S S Ss Sv x = 0 := by
  unfold squareSumA11
  rw [show (1 * S - 1 * S) * (-1 + x) = 0 by ring, div_zero]

/-- Likewise for the `a12` closed form. -/
theorem squareSumA12_degenerate (a13 a21 a22 a33 sr S Ss Sv x : ℚ) :
    squareSumA12 a13 a21 a22 a33 1 1 sr S S Ss Sv x = 0 := by
  unfold squareSumA12
  rw [show (1 * S - 1 * S) * (-1 + x) = 0 by ring, div_zero]

/-- On the demo data `square_sum` always builds the same matrix. -/
theorem demo_squareSum_mat (fs age a13 : ℚ) (lamRef : ℤ) :
    (squareSum (demoData fs age) a13 lamRef).mat
      = ⟨0, 0, my_round a13 8, 1/2, 1/2, 0, 0, 0, 1⟩ := by
  simp only [squareSum, demoData_l, demoData_m, demoData_s, demoData_v,
    demoData_lambdas, demoData_a21, demoData_a22, demoData_matDp, demo_a33,
    List.map_cons, List.map_nil, demo_lSpline, demo_mSpline, demo_sSpline,
    demo_vSpline]
  rw [squareSumA11_degenerate, squareSumA12_degenerate, my_round_zero]

/-- On the demo data the modelled x-chromaticity does not depend on the
wavelength. -/
theorem demo_xChrom (fs age : ℚ) (m : Mat3) (lam : ℤ) :
    xChrom (demoData fs age) m lam = ccxOf (xyzTripleOf m 1 1 1 7) := by
  unfold xChrom
  rw [demoData_l, demoData_m, demoData_s, demo_lSpline, demo_mSpline,
    demo_sSpline]
  rfl

/-- On the demo data the x-chromaticity is constant over the inner grid, so
`np.argmin` returns the first index and the landmark is 390. -/
theorem demo_squareSum_lamTest (fs age a13 : ℚ) (lamRef : ℤ) :
    (squareSum (demoData fs age) a13 lamRef).lamTest = 390 := by
  simp only [squareSum]
  rw [List.map_congr_left (fun lam _ => demo_xChrom fs age _ lam),
    argminIdx_map_const]
  decide

/-- The demo convergence flag tests the landmark 390 against the current
reference wavelength. -/
theorem demo_squareSum_ok (fs age a13 : ℚ) (lamRef : ℤ) :
    (squareSum (demoData fs age) a13 lamRef).ok = ((390 : ℤ) == lamRef) := by
  rw [squareSum_ok_eq, demo_squareSum_lamTest]

/-- The demo loop converges with fuel 2: the first iteration moves the
landmark from 500 to 390, the second confirms it. -/
theorem demo_solverLoop (fs age : ℚ) :
    solverLoop (demoData fs age) 2 500 = some (demoR fs age) := by
  have hok1 : ¬((squareSum (demoData fs age) ((demoData fs age).fmin 500) 500).ok
      = true) := by
    rw [demo_squareSum_ok]
    decide
  have hok2 : (squareSum (demoData fs age) ((demoData fs age).fmin 390) 390).ok
      = true := by
    rw [demo_squareSum_ok]
    decide
  rw [show (2:ℕ) = 1+1 from rfl]
  simp only [solverLoop]
  rw [if_neg hok1, demo_squareSum_lamTest, if_pos hok2]
  rfl

/-- The full pipeline on the demo oracles returns the assembled bundle of
the converged result, for any physiological parameters. -/
theorem demo_computeTabulated (fs age : ℚ) :
    computeTabulated demoP fs age 220 2 7 5 8 6 6 5
      = some (assembleBundle demoP fs age 220 7 5 8 6 6 5 (demoR fs age)) := by
  unfold computeTabulated
  rw [show solverDataOf demoP fs age 220 7 8 = demoData fs age from rfl,
    demo_solverLoop]
  rfl

/-- The demo matrix in closed form. -/
theorem demo_mat_eq (fs age : ℚ) : (demoR fs age).mat = demoMat := by
  unfold demoR demoMat
  rw [demo_squareSum_mat, my_round_zero]

/-- The demo `cc` denominator is 2 at every wavelength. -/
theorem demo_xyzSumAt (fs age t : ℚ) : xyzSumAt demoP fs age 7 demoMat t = 2 := by
  simp only [xyzSumAt, demo_lSpline, demo_mSpline, demo_sSpline]
  decide

/-- The demo `lm` denominator is 1 at every wavelength. -/
theorem demo_lmsNnSumAt (fs age t : ℚ) :
    lmsNnSumAt demoP fs age 220 6 5 t = 1 := by
  simp only [lmsNnSumAt, lmsNOf, lmsNRowAt, lmsTableOf, lmsStdTableOf, grid220,
    List.map_cons, List.map_nil, demo_lSpline, demo_mSpline, demo_sSpline,
    demo_lsSpline, demo_msSpline, demo_ssSpline]
  decide

/-- The demo Boynton-MacLeod table: every row is `(λ, 1/2, 1/2, 1)`, so the
chromatic coordinates sum to 2, not 1. -/
theorem demo_bm_rows : bmTableOf demoP 2 32 220 7 8 6 demoMat
    = [(390, 1/2, 1/2, 1), (610, 1/2, 1/2, 1), (830, 1/2, 1/2, 1)] := by
  simp only [bmTableOf, grid220, List.map_cons, List.map_nil, demo_lSpline,
    demo_mSpline, demo_sSpline, demo_vSpline]
  decide

/-- C1 (witness): the demo loop converges with fuel 2 and its exit indeed
satisfies the fixed-point property. -/
theorem C1_loop_exits_only_at_fixed_point_witness :
    solverLoop (demoData 2 32) 2 500 = some (demoR 2 32) ∧
    solverStep (demoData 2 32) (demoR 2 32).lamTest = (demoR 2 32).lamTest ∧
    (demoR 2 32).ok = true := by
  refine ⟨demo_solverLoop 2 32, ?_, ?_⟩
  · exact (C1_loop_exits_only_at_fixed_point (demoData 2 32) 2 500 (demoR 2 32)
      (demo_solverLoop 2 32)).1
  · exact (C1_loop_exits_only_at_fixed_point (demoData 2 32) 2 500 (demoR 2 32)
      (demo_solverLoop 2 32)).2

/-- C2 (witness): on the demo pipeline run both the `cc` and the `lm`
tables have row sums within one rounding quantum of 1. -/
theorem C2_cc_lm_row_sums_near_one_witness :
    computeTabulated demoP 2 32 220 2 7 5 8 6 6 5 = some demoBundle ∧
    ((∀ row ∈ demoBundle.cc, |row.2.1 + row.2.2.1 + row.2.2.2 - 1| ≤ 1 / 10 ^ 5) ∧
     (∀ row ∈ demoBundle.lm, |row.2.1 + row.2.2.1 + row.2.2.2 - 1| ≤ 1 / 10 ^ 5)) := by
  refine ⟨demo_computeTabulated 2 32, ?_⟩
  refine C2_cc_lm_row_sums_near_one demoP 2 32 220 2 7 5 8 6 6 5 demoBundle
    (demo_computeTabulated 2 32) ?_ ?_
  · intro t ht
    show xyzSumAt demoP 2 32 7 (demoR 2 32).mat t ≠ 0
    rw [demo_mat_eq, demo_xyzSumAt]
    norm_num
  · intro t ht
    rw [demo_lmsNnSumAt]
    norm_num

/-- C2 (counterexample): the same run's `bm` table violates the claimed
sum-to-one property in every row — the spec may not state it for the
Boynton-MacLeod diagram, whose coordinates satisfy `l + m = 1` with `s`
free instead. -/
theorem C2_bm_row_sum_far_from_one :
    computeTabulated demoP 2 32 220 2 7 5 8 6 6 5 = some demoBundle ∧
    ∃ row ∈ demoBundle.bm, ¬(|row.2.1 + row.2.2.1 + row.2.2.2 - 1| ≤ 1 / 10 ^ 6) := by
  refine ⟨demo_computeTabulated 2 32, ?_⟩
  have hbm : demoBundle.bm
      = [(390, 1/2, 1/2, 1), (610, 1/2, 1/2, 1), (830, 1/2, 1/2, 1)] := by
    show bmTableOf demoP 2 32 220 7 8 6 (demoR 2 32).mat = _
    rw [demo_mat_eq, demo_bm_rows]
  rw [hbm]
  exact ⟨(390, 1/2, 1/2, 1), by decide, by decide⟩

/-- C3 (counterexample): at nonpositive `field_size = -1` and `age = -5`
the pipeline still returns a bundle — no validation rejects them and no
error path exists. -/
theorem C3_invalid_params_accepted :
    computeTabulated demoP (-1) (-5) 220 2 7 5 8 6 6 5 = some demoBundleBad ∧
    ¬(0 < (-1 : ℚ)) ∧ ¬(0 < (-5 : ℚ)) :=
  ⟨demo_computeTabulated (-1) (-5), by norm_num, by norm_num⟩

/-- C8 (witness): instantiating the landmark-minimality theorem on the
demo run. -/
theorem C8_landmark_is_argmin_witness :
    solverLoop (demoData 2 32) 2 500 = some (demoR 2 32) ∧
    ((demoR 2 32).lamTest ∈ innerGrid ∧
     ∀ lam ∈ innerGrid,
       xChrom (demoData 2 32) (demoR 2 32).mat (demoR 2 32).lamTest
         ≤ xChrom (demoData 2 32) (demoR 2 32).mat lam) :=
  ⟨demo_solverLoop 2 32,
   C8_landmark_is_argmin (demoData 2 32) 2 500 (demoR 2 32)
     (demo_solverLoop 2 32)⟩

/-- C9 (witness): the structural zeros and the `a33` formula on the demo
run. -/
theorem C9_matrix_structure_witness :
    computeTabulated demoP 2 32 220 2 7 5 8 6 6 5 = some demoBundle ∧
    (demoBundle.mat.a23 = 0 ∧ demoBundle.mat.a31 = 0 ∧ demoBundle.mat.a32 = 0 ∧
     demoBundle.mat.a33 = my_round
       ((((gridOf 220).map (vSplineOf demoP 2 32 7 8)).sum) /
        (((gridOf 220).map (sSplineOf demoP 2 32)).sum)) 8) :=
  ⟨demo_computeTabulated 2 32,
   C9_matrix_structure demoP 2 32 220 2 7 5 8 6 6 5 demoBundle
     (demo_computeTabulated 2 32)⟩

/-- C10 (witness): the purple-line wavelength agreement on the demo run. -/
theorem C10_purple_wavelengths_agree_witness :
    computeTabulated demoP 2 32 220 2 7 5 8 6 6 5 = some demoBundle ∧
    demoBundle.purpleLineCC.2.1 = demoBundle.purpleLineBM.2.1 :=
  ⟨demo_computeTabulated 2 32,
   C10_purple_wavelengths_agree demoP 2 32 220 2 7 5 8 6 6 5 demoBundle
     (demo_computeTabulated 2 32)⟩

/-- The knot list of the demo standards. -/
theorem demo_knots : knotsOf (ccFromXYZ demoXYZ) = [360, 500, 600, 700, 830] := by
  decide

/-- C7 (witness): on the concrete standards `demoXYZ` the interpolated
chromaticities reproduce the tabulated rows exactly at the endpoint field
sizes (here at 360 nm for `field_size = 2` and 600 nm for
`field_size = 10`). -/
theorem C7_blend_endpoints_exact_witness :
    chromIntRow demoP.interp demoP.xyz31 demoP.xyz64 2 360
      = (2 / (2 + 1 + 1), 1 / (2 + 1 + 1), 1 / (2 + 1 + 1)) ∧
    chromIntRow demoP.interp demoP.xyz31 demoP.xyz64 10 600
      = (2 / (2 + 7 + 1), 7 / (2 + 7 + 1), 1 / (2 + 7 + 1)) := by
  have hch : List.Chain' (fun p q : Row4 => p.1 < q.1) demoXYZ := by
    norm_num [demoXYZ, List.chain'_cons]
  have hkch : List.Chain' (· < ·) (knotsOf (ccFromXYZ demoXYZ)) := by
    rw [demo_knots]
    norm_num [List.chain'_cons]
  have main := C7_blend_endpoints_exact demoP
    (fun tab x y hch hmem => linInterp_node tab hch x y hmem)
    hch hch hkch hkch
    (by decide) (by decide) (by decide) (by decide)
    (by decide) (by decide) (by decide) (by decide)
  exact ⟨main.1 (360, 2, 1, 1) (by decide), main.2 (600, 2, 7, 1) (by decide)⟩


end Theorems

end CIE
